import Mathlib

/-!
Verification of the Argus rent-roll normalization pipeline
(`src/utils.py`, function `calculate_monthly_rent`, and the
reconciliation policy of the design document).

The Python code is shallowly embedded: dictionaries become records of
`Option` fields (`none` models an absent key), Python exceptions become an
explicit `PyError` type threaded through `Except`, `datetime.strptime`
becomes an executable date parser, and float arithmetic with
`round(x, 2)` is idealized as rational arithmetic with round-half-even.
Python mutates the incoming mapping in place and returns it; the
embedding makes the heap effect explicit by returning the post-call state
of the argument, which (by aliasing) is also the function's return value.
-/

namespace ArgusRentRoll

/-- Calendar date as produced by `datetime.strptime(s, "%m/%d/%Y")`. -/
structure Date where
  year : Nat
  month : Nat
  day : Nat
deriving DecidableEq, Repr

/-- Gregorian leap-year rule, as validated by Python's `datetime`. -/
def isLeapYear (y : Nat) : Bool :=
  (y % 4 == 0 && y % 100 != 0) || y % 400 == 0

/-- Number of days in month `m` of year `y`, as validated by `datetime`. -/
def daysInMonth (y m : Nat) : Nat :=
  if m = 2 then (if isLeapYear y then 29 else 28)
  else if m = 4 ∨ m = 6 ∨ m = 9 ∨ m = 11 then 30
  else 31

/-- Numeric value of a decimal digit character. -/
def digitVal (c : Char) : Option Nat :=
  if c.isDigit then some (c.toNat - 48) else none

/-- Accumulate decimal digit characters into a number; fails on a
non-digit. -/
def digitsToNat : List Char → Nat → Option Nat
  | [], acc => some acc
  | c :: cs, acc =>
    match digitVal c with
    | some d => digitsToNat cs (acc * 10 + d)
    | none => none

/-- A nonempty all-digit character list as a number. -/
def parseDigits (cs : List Char) : Option Nat :=
  match cs with
  | [] => none
  | _ => digitsToNat cs 0

/-- A month or day field as matched by `strptime`'s regex for `%m` / `%d`:
one or two digits, value between 1 and `hi` (a bare `0` or `00` never
matches). -/
def parseField2 (cs : List Char) (hi : Nat) : Option Nat :=
  if cs.length = 0 ∨ 2 < cs.length then none
  else
    match parseDigits cs with
    | some v => if 1 ≤ v ∧ v ≤ hi then some v else none
    | none => none

/-- A year field as matched by `strptime`'s regex for `%Y`: exactly four
digits; `datetime` additionally requires year ≥ 1. -/
def parseYear4 (cs : List Char) : Option Nat :=
  if cs.length = 4 then
    match parseDigits cs with
    | some v => if 1 ≤ v then some v else none
    | none => none
  else none

/-- Split a character list on `/`, like Python's `str.split("/")`. -/
def splitSlash : List Char → List (List Char)
  | [] => [[]]
  | c :: cs =>
    let r := splitSlash cs
    if c = '/' then [] :: r
    else
      match r with
      | [] => [[c]]
      | g :: gs => (c :: g) :: gs

/-- Models `datetime.strptime(s, "%m/%d/%Y")` (src/utils.py lines 221 and
225): month `/` day `/` four-digit year, with the day checked against the
month's length; `none` models the `ValueError` Python raises on a
malformed date string. -/
def strptimeMDY (s : String) : Option Date :=
  match splitSlash s.toList with
  | [ms, ds, ys] =>
    match parseField2 ms 12, parseField2 ds 31, parseYear4 ys with
    | some m, some d, some y =>
      if d ≤ daysInMonth y m then some ⟨y, m, d⟩ else none
    | _, _, _ => none
  | _ => none

/-- Round-half-even to an integer, modelling Python's `round`. Written on
the reduced fraction `q.num / q.den`: with `n = ⌊q⌋` and remainder `r`,
the fractional part `r / q.den` is compared against `1/2` by comparing
`2 * r` against `q.den`. -/
def pyRoundInt (q : ℚ) : ℤ :=
  let n := Int.ediv q.num (q.den : ℤ)
  let r := Int.emod q.num (q.den : ℤ)
  if 2 * r < (q.den : ℤ) then n
  else if (q.den : ℤ) < 2 * r then n + 1
  else if n % 2 = 0 then n else n + 1

/-- Models Python's `round(x, 2)` (src/utils.py line 238), idealized over
the rationals. -/
def pyRound2 (q : ℚ) : ℚ :=
  (pyRoundInt (q * 100) : ℚ) / 100

/-- The divisor used in the proration (src/utils.py lines 228-235):
inclusive month count, clamped to 1, when the lease ends in the analysis
year; 12 otherwise. -/
def prorationDivisor (analysis lease_end : Date) : ℤ :=
  if lease_end.year = analysis.year then
    let months : ℤ := ((lease_end.month : ℤ) - (analysis.month : ℤ)) + 1
    if months ≤ 0 then 1 else months
  else 12

/-- The proration calculation of src/utils.py lines 228-238:
`round(potential_rent / divisor, 2)`. -/
def prorate (potential_rent : ℚ) (analysis lease_end : Date) : ℚ :=
  pyRound2 (potential_rent / (prorationDivisor analysis lease_end : ℚ))

example : strptimeMDY "3/31/2025" = some ⟨2025, 3, 31⟩ := by decide
example : strptimeMDY "12/31/2025" = some ⟨2025, 12, 31⟩ := by decide
example : strptimeMDY "2/29/2025" = none := by decide
example : strptimeMDY "2/29/2024" = some ⟨2024, 2, 29⟩ := by decide
example : strptimeMDY "13/1/2025" = none := by decide
example : strptimeMDY "3/31/25" = none := by decide
example : strptimeMDY "hello" = none := by decide
example : strptimeMDY "0/1/2025" = none := by decide
example : prorate 1200 ⟨2025, 11, 30⟩ ⟨2025, 12, 31⟩ = 600 := by
  norm_num [prorate, pyRound2, pyRoundInt, prorationDivisor]
example : prorate 1200 ⟨2025, 11, 30⟩ ⟨2026, 3, 31⟩ = 100 := by
  norm_num [prorate, pyRound2, pyRoundInt, prorationDivisor]
example : prorate 1200 ⟨2025, 3, 31⟩ ⟨2025, 12, 31⟩ = 120 := by
  norm_num [prorate, pyRound2, pyRoundInt, prorationDivisor]
example : prorate 1000 ⟨2025, 6, 30⟩ ⟨2025, 2, 28⟩ = 1000 := by
  norm_num [prorate, pyRound2, pyRoundInt, prorationDivisor]

/-- One unit's field-mapping inside the Argus RawExtraction; `none` models
an absent dictionary key.  Numeric fields are idealized as rationals. -/
structure UnitMap where
  occupant_name : Option String := none
  unit_number : Option String := none
  square_feet : Option ℚ := none
  lease_start_date : Option String := none
  lease_end_date : Option String := none
  potential_rent : Option ℚ := none
  monthly_rent : Option ℚ := none
deriving DecidableEq, Repr

/-- The Argus RawExtraction mapping; `none` models an absent key. -/
structure RawData where
  analysis_date : Option String := none
  units : Option (List UnitMap) := none
deriving DecidableEq, Repr

/-- The exceptions `calculate_monthly_rent` can raise: `KeyError` from a
missing dictionary key, `ValueError` from `strptime` on a malformed date
string, and `json.JSONDecodeError` from `json.loads`.  Note none of these
carries a unit index. -/
inductive PyError where
  | keyError (key : String)
  | valueError (badString : String)
  | jsonDecodeError
deriving DecidableEq, Repr

/-- One iteration of the loop in `calculate_monthly_rent` (src/utils.py
lines 224-239): `unit["lease_end_date"]` raises `KeyError` if absent,
`strptime` raises `ValueError` if malformed; `potential_rent` is read with
`unit.get("potential_rent", 0)`, so an absent key silently becomes 0.
Python mutates `unit` in place; the returned mapping is the unit's state
after the iteration. -/
def processUnit (analysis : Date) (u : UnitMap) : Except PyError UnitMap :=
  match u.lease_end_date with
  | none => .error (.keyError "lease_end_date")
  | some s =>
    match strptimeMDY s with
    | none => .error (.valueError s)
    | some led =>
      .ok { u with
              monthly_rent := some (prorate (u.potential_rent.getD 0) analysis led),
              potential_rent := none }

/-- The `for unit in data.get("units", [])` loop: units are processed left
to right and the first exception aborts the whole call. -/
def processUnits (analysis : Date) : List UnitMap → Except PyError (List UnitMap)
  | [] => .ok []
  | u :: us =>
    match processUnit analysis u with
    | .error e => .error e
    | .ok u' =>
      match processUnits analysis us with
      | .error e => .error e
      | .ok us' => .ok (u' :: us')

/-- The body of `calculate_monthly_rent` (src/utils.py lines 220-241) on an
already-parsed mapping: `data["analysis_date"]` raises `KeyError` if the
key is absent, `strptime` raises `ValueError` if it is malformed, then the
unit loop runs.  Python mutates `data` in place and returns it, so the
returned mapping is also the post-call state of the argument; an absent
`units` key gives the loop nothing to do (`data.get("units", [])`) and the
mapping comes back unchanged. -/
def calculateMonthlyRentMap (d : RawData) : Except PyError RawData :=
  match d.analysis_date with
  | none => .error (.keyError "analysis_date")
  | some s =>
    match strptimeMDY s with
    | none => .error (.valueError s)
    | some analysis =>
      match d.units with
      | none => .ok d
      | some us =>
        match processUnits analysis us with
        | .error e => .error e
        | .ok us' => .ok { d with units := some us' }

example :
    processUnit ⟨2025, 3, 31⟩ { lease_end_date := some "12/31/2025", potential_rent := some 1200 } =
      .ok { lease_end_date := some "12/31/2025", monthly_rent := some 120 } := by
  have h : strptimeMDY "12/31/2025" = some ⟨2025, 12, 31⟩ := by decide
  simp only [processUnit, h]
  norm_num [prorate, pyRound2, pyRoundInt, prorationDivisor]

example :
    processUnit ⟨2025, 3, 31⟩ { lease_end_date := some "12/31/2025" } =
      .ok { lease_end_date := some "12/31/2025", monthly_rent := some 0 } := by
  have h : strptimeMDY "12/31/2025" = some ⟨2025, 12, 31⟩ := by decide
  simp only [processUnit, h]
  norm_num [prorate, pyRound2, pyRoundInt, prorationDivisor]

example :
    processUnit ⟨2025, 3, 31⟩ { potential_rent := some 1200 } =
      .error (.keyError "lease_end_date") := by
  simp [processUnit]

example :
    calculateMonthlyRentMap
        { analysis_date := some "3/31/2025",
          units := some [{ lease_end_date := some "13/45/2025" }] } =
      .error (.valueError "13/45/2025") := by
  have h : strptimeMDY "3/31/2025" = some ⟨2025, 3, 31⟩ := by decide
  have h2 : strptimeMDY "13/45/2025" = none := by decide
  simp [calculateMonthlyRentMap, processUnits, processUnit, h, h2]

/-! ### A model of `json.dumps` / `json.loads` on the RawExtraction shape

`calculate_monthly_rent` accepts either an already-parsed mapping or a
string, which it first runs through `json.loads` (src/utils.py lines
216-218).  The fragment of JSON modelled here is exactly what a
RawExtraction serializes to: an object whose values are strings, decimal
numbers, and one array of flat objects.  Strings must need no escaping
(printable ASCII without `"` or `\`) and numbers must be finite decimals;
`json_dumps` returns `none` outside that fragment. -/

/-- The character for a decimal digit. -/
def digitChar (d : Nat) : Char :=
  match d with
  | 0 => '0'
  | 1 => '1'
  | 2 => '2'
  | 3 => '3'
  | 4 => '4'
  | 5 => '5'
  | 6 => '6'
  | 7 => '7'
  | 8 => '8'
  | _ => '9'

/-- Decimal digit characters of `n`, least significant first; `fuel`
bounds the recursion and is instantiated with `n` itself. -/
def natDigitsRev : Nat → Nat → List Char
  | _, 0 => []
  | 0, _ + 1 => []
  | fuel + 1, n + 1 =>
    digitChar ((n + 1) % 10) :: natDigitsRev fuel ((n + 1) / 10)

/-- Decimal rendering of a natural number, most significant digit first. -/
def natToChars (n : Nat) : List Char :=
  if n = 0 then ['0'] else (natDigitsRev n n).reverse

/-- Left-pad a digit string with zeros to width `k`. -/
def padZeros (k : Nat) (cs : List Char) : List Char :=
  List.replicate (k - cs.length) '0' ++ cs

/-- Search for the least `e` with `den ∣ 10 ^ e`, starting from `k`. -/
def decExpAux (den : Nat) : Nat → Nat → Option Nat
  | 0, _ => none
  | fuel + 1, k => if 10 ^ k % den = 0 then some k else decExpAux den fuel (k + 1)

/-- Least `e` with `den ∣ 10 ^ e`, if any; `none` exactly when the
denominator has a prime factor other than 2 and 5. -/
def decExp (den : Nat) : Option Nat :=
  decExpAux den (den + 1) 0

/-- Scaled integer mantissa of a decimal rational: `|q| * 10^k`. -/
def dumpRatMant (q : ℚ) (k : Nat) : Nat :=
  q.num.natAbs * 10 ^ k / q.den

/-- Unsigned decimal rendering `intpart.fracpart` of a rational at scale
`k`. -/
def dumpRatCore (q : ℚ) (k : Nat) : List Char :=
  natToChars (dumpRatMant q k / 10 ^ k) ++
    '.' :: (if k = 0 then ['0']
            else padZeros k (natToChars (dumpRatMant q k % 10 ^ k)))

/-- Decimal rendering of a rational, in the style of `repr` on a Python
float (always at least one fractional digit, so `600` prints as `600.0`);
`none` if the rational is not a finite decimal. -/
def dumpRat (q : ℚ) : Option (List Char) :=
  match decExp q.den with
  | none => none
  | some k =>
    some (if q.num < 0 then '-' :: dumpRatCore q k else dumpRatCore q k)

/-- A character `json.dumps` emits verbatim inside a string literal:
printable ASCII that is neither the quote nor the backslash. -/
def jsonSafe (c : Char) : Bool :=
  c ≠ '"' && c ≠ '\\' && 32 ≤ c.toNat && c.toNat < 127

/-- JSON string literal for `s`; `none` if `s` would need escaping. -/
def dumpStr (s : String) : Option (List Char) :=
  if s.toList.all jsonSafe then some ('"' :: s.toList ++ ['"']) else none

/-- The JSON values occurring in a serialized RawExtraction: strings,
numbers, and the array of unit objects. -/
inductive JVal where
  | jstr (s : String)
  | jnum (q : ℚ)
  | jarr (us : List UnitMap)
deriving DecidableEq, Repr

/-- Key-value pairs of a serialized unit, in the field order of the
extraction schema, present fields only. -/
def unitPairs (u : UnitMap) : List (String × JVal) :=
  (u.occupant_name.map fun v => ("occupant_name", JVal.jstr v)).toList ++
  (u.unit_number.map fun v => ("unit_number", JVal.jstr v)).toList ++
  (u.square_feet.map fun v => ("square_feet", JVal.jnum v)).toList ++
  (u.lease_start_date.map fun v => ("lease_start_date", JVal.jstr v)).toList ++
  (u.lease_end_date.map fun v => ("lease_end_date", JVal.jstr v)).toList ++
  (u.potential_rent.map fun v => ("potential_rent", JVal.jnum v)).toList ++
  (u.monthly_rent.map fun v => ("monthly_rent", JVal.jnum v)).toList

/-- Render a string or number value. -/
def dumpPrim : JVal → Option (List Char)
  | .jstr s => dumpStr s
  | .jnum q => dumpRat q
  | .jarr _ => none

/-- Render `"key": value`. -/
def dumpPair (p : String × JVal) : Option (List Char) := do
  let k ← dumpStr p.1
  let v ← dumpPrim p.2
  pure (k ++ ':' :: ' ' :: v)

/-- Render pairs separated by `", "`, the default `json.dumps` item
separator. -/
def dumpPairList : List (String × JVal) → Option (List Char)
  | [] => some []
  | [p] => dumpPair p
  | p :: ps => do
    let c ← dumpPair p
    let rest ← dumpPairList ps
    pure (c ++ ',' :: ' ' :: rest)

/-- Render one unit object. -/
def dumpUnitChars (u : UnitMap) : Option (List Char) := do
  let body ← dumpPairList (unitPairs u)
  pure ('\x7b' :: body ++ ['\x7d'])

/-- Render the units array. -/
def dumpUnitsArr : List UnitMap → Option (List Char)
  | [] => some []
  | [u] => dumpUnitChars u
  | u :: us => do
    let c ← dumpUnitChars u
    let rest ← dumpUnitsArr us
    pure (c ++ ',' :: ' ' :: rest)

/-- Models `json.dumps` on a RawExtraction mapping, with the keys in
schema order; `none` outside the modelled fragment. -/
def json_dumps (d : RawData) : Option String := do
  let aPart ←
    match d.analysis_date with
    | none => some none
    | some s => do
      let k ← dumpStr "analysis_date"
      let v ← dumpStr s
      pure (some (k ++ ':' :: ' ' :: v))
  let uPart ←
    match d.units with
    | none => some none
    | some us => do
      let k ← dumpStr "units"
      let arr ← dumpUnitsArr us
      pure (some (k ++ ':' :: ' ' :: '[' :: arr ++ [']']))
  let body :=
    match aPart, uPart with
    | none, none => []
    | some a, none => a
    | none, some u => u
    | some a, some u => a ++ ',' :: ' ' :: u
  pure (String.mk ('\x7b' :: body ++ ['\x7d']))

/-- Read raw characters up to the closing quote of a JSON string
literal. -/
def takeUntilQuote : List Char → Option (List Char × List Char)
  | [] => none
  | c :: cs =>
    if c = '"' then some ([], cs)
    else
      match takeUntilQuote cs with
      | some (acc, rest) => some (c :: acc, rest)
      | none => none

/-- Longest digit prefix of a character list. -/
def spanDigits : List Char → List Char × List Char
  | [] => ([], [])
  | c :: cs =>
    if c.isDigit then
      let (d, r) := spanDigits cs
      (c :: d, r)
    else ([], c :: cs)

/-- Parse a JSON number: optional minus sign, integer digits, optional
fractional digits. -/
def parseJNumber (cs : List Char) : Option (ℚ × List Char) :=
  let signSplit : Bool × List Char :=
    match cs with
    | c :: rest => if c = '-' then (true, rest) else (false, c :: rest)
    | [] => (false, [])
  let neg := signSplit.1
  let (ip, cs2) := spanDigits signSplit.2
  match parseDigits ip with
  | none => none
  | some i =>
    match cs2 with
    | '.' :: cs3 =>
      let (fp, cs4) := spanDigits cs3
      match parseDigits fp with
      | none => none
      | some f =>
        let mag : ℚ := (i : ℚ) + (f : ℚ) / ((10 : ℚ) ^ fp.length)
        some (if neg then -mag else mag, cs4)
    | _ => some (if neg then -(i : ℚ) else (i : ℚ), cs2)

/-- Parse a string or number value. -/
def parsePrim (cs : List Char) : Option (JVal × List Char) :=
  match cs with
  | c :: cs1 =>
    if c = '"' then
      match takeUntilQuote cs1 with
      | some (s, rest) => some (.jstr (String.mk s), rest)
      | none => none
    else
      match parseJNumber (c :: cs1) with
      | some (q, rest) => some (.jnum q, rest)
      | none => none
  | [] => none

/-- Parse one `"key": value` pair whose value is a string or number. -/
def parseKeyPrim (cs : List Char) : Option ((String × JVal) × List Char) :=
  match cs with
  | '"' :: cs1 =>
    match takeUntilQuote cs1 with
    | some (key, cs2) =>
      match cs2 with
      | ':' :: ' ' :: cs3 =>
        match parsePrim cs3 with
        | some (v, cs4) => some ((String.mk key, v), cs4)
        | none => none
      | _ => none
    | none => none
  | _ => none

/-- Parse a nonempty `", "`-separated pair sequence terminated by `}`,
values being strings or numbers. -/
def parseUnitPairs : Nat → List Char → Option (List (String × JVal) × List Char)
  | 0, _ => none
  | fuel + 1, cs =>
    match parseKeyPrim cs with
    | none => none
    | some (kv, cs') =>
      match cs' with
      | ',' :: ' ' :: cs'' =>
        match parseUnitPairs fuel cs'' with
        | some (ps, rest) => some (kv :: ps, rest)
        | none => none
      | '\x7d' :: rest => some ([kv], rest)
      | _ => none

/-- Store one parsed pair into a unit mapping (later keys overwrite, as in
a Python dict); `none` on a key or value type outside the schema. -/
def setUnitField (u : UnitMap) : String × JVal → Option UnitMap
  | ("occupant_name", .jstr s) => some { u with occupant_name := some s }
  | ("unit_number", .jstr s) => some { u with unit_number := some s }
  | ("square_feet", .jnum q) => some { u with square_feet := some q }
  | ("lease_start_date", .jstr s) => some { u with lease_start_date := some s }
  | ("lease_end_date", .jstr s) => some { u with lease_end_date := some s }
  | ("potential_rent", .jnum q) => some { u with potential_rent := some q }
  | ("monthly_rent", .jnum q) => some { u with monthly_rent := some q }
  | _ => none

/-- Fold parsed pairs into a unit mapping. -/
def toUnitMap : List (String × JVal) → UnitMap → Option UnitMap
  | [], u => some u
  | p :: ps, u =>
    match setUnitField u p with
    | some u' => toUnitMap ps u'
    | none => none

/-- Parse one unit object `{...}`. -/
def parseUnitObj (fuel : Nat) (cs : List Char) : Option (UnitMap × List Char) :=
  match cs with
  | c :: cs1 =>
    if c = '\x7b' then
      match cs1 with
      | c2 :: cs2 =>
        if c2 = '\x7d' then some ({}, cs2)
        else
          match parseUnitPairs fuel (c2 :: cs2) with
          | some (ps, rest) =>
            match toUnitMap ps {} with
            | some u => some (u, rest)
            | none => none
          | none => none
      | [] => none
    else none
  | [] => none

/-- Parse a nonempty `", "`-separated sequence of unit objects terminated
by `]`. -/
def parseUnitsList : Nat → List Char → Option (List UnitMap × List Char)
  | 0, _ => none
  | fuel + 1, cs =>
    match parseUnitObj fuel cs with
    | none => none
    | some (u, cs') =>
      match cs' with
      | ',' :: ' ' :: cs'' =>
        match parseUnitsList fuel cs'' with
        | some (us, rest) => some (u :: us, rest)
        | none => none
      | ']' :: rest => some ([u], rest)
      | _ => none

/-- Parse a top-level value: the units array or a primitive. -/
def parseTopVal (fuel : Nat) (cs : List Char) : Option (JVal × List Char) :=
  match cs with
  | c :: cs1 =>
    if c = '[' then
      match cs1 with
      | c2 :: cs2 =>
        if c2 = ']' then some (.jarr [], cs2)
        else
          match parseUnitsList fuel (c2 :: cs2) with
          | some (us, rest) => some (.jarr us, rest)
          | none => none
      | [] => none
    else parsePrim (c :: cs1)
  | [] => none

/-- Parse a nonempty `", "`-separated pair sequence terminated by `}` at
the top level, where a value may also be the units array. -/
def parseTopPairs : Nat → List Char → Option (List (String × JVal) × List Char)
  | 0, _ => none
  | fuel + 1, cs =>
    match cs with
    | '"' :: cs1 =>
      match takeUntilQuote cs1 with
      | some (key, cs2) =>
        match cs2 with
        | ':' :: ' ' :: cs3 =>
          match parseTopVal fuel cs3 with
          | some (v, cs4) =>
            match cs4 with
            | ',' :: ' ' :: cs5 =>
              match parseTopPairs fuel cs5 with
              | some (ps, rest) => some ((String.mk key, v) :: ps, rest)
              | none => none
            | '\x7d' :: rest => some ([(String.mk key, v)], rest)
            | _ => none
          | none => none
        | _ => none
      | none => none
    | _ => none

/-- Store one parsed top-level pair into a RawExtraction mapping. -/
def setTopField (d : RawData) : String × JVal → Option RawData
  | ("analysis_date", .jstr s) => some { d with analysis_date := some s }
  | ("units", .jarr us) => some { d with units := some us }
  | _ => none

/-- Fold parsed top-level pairs into a RawExtraction mapping. -/
def toRawData : List (String × JVal) → RawData → Option RawData
  | [], d => some d
  | p :: ps, d =>
    match setTopField d p with
    | some d' => toRawData ps d'
    | none => none

/-- Models `json.loads` (src/utils.py line 218) on the RawExtraction
fragment: a top-level object with `analysis_date` and `units` keys, no
surrounding whitespace, the whole string consumed. -/
def json_loads (s : String) : Option RawData :=
  match s.toList with
  | c :: cs =>
    if c = '\x7b' then
      match cs with
      | [c2] => if c2 = '\x7d' then some {} else none
      | _ =>
        match parseTopPairs s.length cs with
        | some (ps, []) => toRawData ps {}
        | _ => none
    else none
  | [] => none

/-- The input to `calculate_monthly_rent`: the upstream extraction step
may hand over the mapping itself or its string serialization. -/
inductive PyInput where
  | str (s : String)
  | map (d : RawData)
deriving DecidableEq, Repr

/-- `calculate_monthly_rent` (src/utils.py lines 206-241): a string input
is first parsed with `json.loads` (lines 216-218), after which both kinds
of input proceed identically on the mapping. -/
def calculate_monthly_rent : PyInput → Except PyError RawData
  | .str s =>
    match json_loads s with
    | none => .error .jsonDecodeError
    | some d => calculateMonthlyRentMap d
  | .map d => calculateMonthlyRentMap d

/-! ### Reconciliation engine

The repository implements the comparison step only as natural-language
instructions to an LLM agent (src/utils.py lines 247-269, `comparison_agent`:
"Do not show discrepancies if they are rounding errors or less than $1");
there is no executable reconciliation code.  The definitions below are
therefore modelled from the design document, §4.3. -/

/-- Modelled from the spec: the canonical UnitRecord schema (§3); the
repository has no such type, only the pydantic extraction models. -/
structure UnitRecord where
  unit_number : String
  occupant_name : String
  square_feet : ℚ
  lease_start_date : Date
  lease_end_date : Date
  monthly_rent : ℚ
deriving DecidableEq, Repr

/-- Modelled from the spec: a field value carried in a DiscrepancyRecord
(§3); absent from the repository. -/
inductive FieldVal where
  | str (s : String)
  | num (q : ℚ)
  | date (d : Date)
deriving DecidableEq, Repr

/-- Modelled from the spec: the `present_in` tag of a DiscrepancyRecord
(§3); absent from the repository. -/
inductive PresentIn where
  | both
  | actual_only
  | argus_only
deriving DecidableEq, Repr

/-- Modelled from the spec: DiscrepancyRecord (§3); absent from the
repository. -/
structure DiscrepancyRecord where
  unit_number : String
  field_name : String
  actual_value : Option FieldVal
  argus_value : Option FieldVal
  delta : Option ℚ
  present_in : PresentIn
deriving DecidableEq, Repr

/-- Modelled from the spec: ReconciliationResult (§3); absent from the
repository. -/
structure ReconciliationResult where
  records : List DiscrepancyRecord
  total_monthly_rent_delta : ℚ
  percentage_variance : ℚ
deriving DecidableEq, Repr

/-- Modelled from the spec: the error taxonomy of §7 relevant to
reconciliation; absent from the repository. -/
inductive ReconError where
  | duplicateUnit
  | invalidThreshold
deriving DecidableEq, Repr

/-- Absolute value of a rational, written to stay executable. -/
def ratAbs (q : ℚ) : ℚ :=
  if q.num < 0 then -q else q

/-- Modelled from the spec: the materiality rule of §4.3 for a numeric
field of a matched unit — emit one DiscrepancyRecord exactly when
`abs(actual - argus) >= materiality_threshold`; absent from the
repository. -/
def numericDiscrepancy (t : ℚ) (un fname : String) (a g : ℚ) :
    List DiscrepancyRecord :=
  if t ≤ ratAbs (a - g) then
    [{ unit_number := un, field_name := fname, actual_value := some (.num a),
       argus_value := some (.num g), delta := some (a - g), present_in := .both }]
  else []

/-- Modelled from the spec: comparison on equality fields of §4.3 — emit
on any mismatch, no materiality; absent from the repository. -/
def eqDiscrepancy (un fname : String) (a g : FieldVal) :
    List DiscrepancyRecord :=
  if a = g then []
  else
    [{ unit_number := un, field_name := fname, actual_value := some a,
       argus_value := some g, delta := none, present_in := .both }]

/-- Modelled from the spec: field comparison of one matched unit (§4.3);
absent from the repository. -/
def compareMatched (t : ℚ) (a g : UnitRecord) : List DiscrepancyRecord :=
  numericDiscrepancy t a.unit_number "monthly_rent" a.monthly_rent g.monthly_rent ++
  numericDiscrepancy t a.unit_number "square_feet" a.square_feet g.square_feet ++
  eqDiscrepancy a.unit_number "occupant_name" (.str a.occupant_name) (.str g.occupant_name) ++
  eqDiscrepancy a.unit_number "lease_end_date" (.date a.lease_end_date) (.date g.lease_end_date)

/-- Modelled from the spec: the record a unit present only in the actual
dataset produces (§4.3); absent from the repository. -/
def actualOnlyRecord (a : UnitRecord) : DiscrepancyRecord :=
  { unit_number := a.unit_number, field_name := "unit", actual_value := some (.str a.unit_number),
    argus_value := none, delta := none, present_in := .actual_only }

/-- Modelled from the spec: the record a unit present only in the Argus
dataset produces (§4.3); absent from the repository. -/
def argusOnlyRecord (g : UnitRecord) : DiscrepancyRecord :=
  { unit_number := g.unit_number, field_name := "unit", actual_value := none,
    argus_value := some (.str g.unit_number), delta := none, present_in := .argus_only }

/-- Modelled from the spec: the ordered discrepancy list of §4.3 — actual
units in actual-list order (matched ones compared field by field,
unmatched ones as `actual_only`), then Argus-only units in Argus-list
order; absent from the repository. -/
def reconcileRecords (t : ℚ) (actual argus : List UnitRecord) :
    List DiscrepancyRecord :=
  (actual.flatMap fun a =>
    match argus.find? (fun g => g.unit_number == a.unit_number) with
    | some g => compareMatched t a g
    | none => [actualOnlyRecord a]) ++
  (argus.filter fun g => actual.all fun a => a.unit_number != g.unit_number).map argusOnlyRecord

/-- Modelled from the spec: the matched pairs used by the aggregates of
§4.3; absent from the repository. -/
def matchedPairs (actual argus : List UnitRecord) :
    List (UnitRecord × UnitRecord) :=
  actual.filterMap fun a =>
    (argus.find? fun g => g.unit_number == a.unit_number).map fun g => (a, g)

/-- Modelled from the spec: `reconcile` (§4.3 and §7) — duplicate unit
numbers within a dataset and a negative threshold are errors; otherwise
the discrepancy list plus `total_monthly_rent_delta` (sum of emitted
monthly_rent deltas over matched units) and `percentage_variance` (that
total over the matched Argus rent sum, 0 when the denominator is 0);
absent from the repository. -/
def reconcile (actual argus : List UnitRecord) (t : ℚ) :
    Except ReconError ReconciliationResult :=
  if t < 0 then .error .invalidThreshold
  else if ¬ (actual.map fun r => r.unit_number).Nodup ∨
          ¬ (argus.map fun r => r.unit_number).Nodup then .error .duplicateUnit
  else
    let records := reconcileRecords t actual argus
    let total :=
      (records.filterMap fun r =>
        if r.field_name = "monthly_rent" ∧ r.present_in = .both then r.delta
        else none).sum
    let denom := ((matchedPairs actual argus).map fun p => p.2.monthly_rent).sum
    .ok { records := records,
          total_monthly_rent_delta := total,
          percentage_variance := if denom = 0 then 0 else total / denom }

/-! ## Properties of the proration calculation -/

/-- C1: for every proration input whose lease_end_date has the same year
as the analysis_date, the divisor is `(lease_end_date.month -
analysis_date.month) + 1`, clamped to 1 whenever that value is ≤ 0, and
the monthly rent is the potential rent divided by that clamped divisor
(then rounded to 2 decimals). -/
theorem C1_same_year_divisor (pr : ℚ) (a led : Date) (h : led.year = a.year) :
    prorationDivisor a led = max 1 ((led.month : ℤ) - (a.month : ℤ) + 1) ∧
    prorate pr a led =
      pyRound2 (pr / ((max 1 ((led.month : ℤ) - (a.month : ℤ) + 1) : ℤ) : ℚ)) := by
  have hd : prorationDivisor a led = max 1 ((led.month : ℤ) - (a.month : ℤ) + 1) := by
    simp only [prorationDivisor, if_pos h]
    rcases le_or_lt ((led.month : ℤ) - (a.month : ℤ) + 1) 0 with h0 | h0
    · rw [if_pos h0, max_eq_left (by omega)]
    · rw [if_neg (by omega), max_eq_right (by omega)]
  exact ⟨hd, by rw [prorate, hd]⟩

/-- Witness for C1 at analysis 11/30/2025, lease end 12/31/2025. -/
theorem C1_same_year_divisor_witness :
    (Date.mk 2025 12 31).year = (Date.mk 2025 11 30).year ∧
    (prorationDivisor ⟨2025, 11, 30⟩ ⟨2025, 12, 31⟩ =
        max 1 ((12 : ℤ) - (11 : ℤ) + 1) ∧
      prorate 1200 ⟨2025, 11, 30⟩ ⟨2025, 12, 31⟩ =
        pyRound2 (1200 / ((max 1 ((12 : ℤ) - (11 : ℤ) + 1) : ℤ) : ℚ))) :=
  ⟨rfl, C1_same_year_divisor 1200 ⟨2025, 11, 30⟩ ⟨2025, 12, 31⟩ rfl⟩

/-- C2: for every proration input whose lease_end_date year differs from
the analysis_date year, the divisor is exactly 12, regardless of how few
months remain. -/
theorem C2_different_year_divisor (pr : ℚ) (a led : Date) (h : led.year ≠ a.year) :
    prorationDivisor a led = 12 ∧ prorate pr a led = pyRound2 (pr / 12) := by
  have hd : prorationDivisor a led = 12 := by simp [prorationDivisor, h]
  refine ⟨hd, ?_⟩
  rw [prorate, hd]
  norm_num

/-- Witness for C2: a lease ending in January of the year after the
analysis date still gets divisor 12, not 2. -/
theorem C2_different_year_divisor_witness :
    (Date.mk 2026 1 31).year ≠ (Date.mk 2025 11 30).year ∧
    (prorationDivisor ⟨2025, 11, 30⟩ ⟨2026, 1, 31⟩ = 12 ∧
      prorate 1200 ⟨2025, 11, 30⟩ ⟨2026, 1, 31⟩ = pyRound2 (1200 / 12)) :=
  ⟨by decide, C2_different_year_divisor 1200 ⟨2025, 11, 30⟩ ⟨2026, 1, 31⟩ (by decide)⟩

/-- C3: the prorated monthly rent is always rounded to 2 decimal places
(an integer number of cents), and concretely prorate(1200, 2025-11-30,
2025-12-31) = 600.00 (divisor 2) and prorate(1200, 2025-11-30,
2026-03-31) = 100.00 (divisor 12). -/
theorem C3_round_two_decimals :
    prorate 1200 ⟨2025, 11, 30⟩ ⟨2025, 12, 31⟩ = 600 ∧
    prorate 1200 ⟨2025, 11, 30⟩ ⟨2026, 3, 31⟩ = 100 ∧
    ∀ (pr : ℚ) (a led : Date), ∃ n : ℤ, prorate pr a led = (n : ℚ) / 100 := by
  refine ⟨?_, ?_, ?_⟩
  · norm_num [prorate, pyRound2, pyRoundInt, prorationDivisor]
  · norm_num [prorate, pyRound2, pyRoundInt, prorationDivisor]
  · intro pr a led
    exact ⟨pyRoundInt (pr / ((prorationDivisor a led : ℤ) : ℚ) * 100), rfl⟩

/-- C10: the proration divisor is always at least 1 — the same-year branch
clamps nonpositive month counts to 1 and the other branch is the constant
12 — so the division computing monthly_rent never divides by zero. -/
theorem C10_divisor_never_zero (a led : Date) :
    1 ≤ prorationDivisor a led ∧ ((prorationDivisor a led : ℤ) : ℚ) ≠ 0 := by
  have h1 : 1 ≤ prorationDivisor a led := by
    have hd : prorationDivisor a led =
        if led.year = a.year then
          (if ((led.month : ℤ) - (a.month : ℤ) + 1) ≤ 0 then 1
           else ((led.month : ℤ) - (a.month : ℤ) + 1))
        else 12 := rfl
    rw [hd]
    split
    · split <;> omega
    · omega
  refine ⟨h1, ?_⟩
  exact_mod_cast (by omega : prorationDivisor a led ≠ 0)

/-! ## Structure of the unit loop -/

/-- A successful unit iteration: the dates were readable and the unit came
back with `monthly_rent` set from the proration and `potential_rent`
removed, all other fields untouched. -/
theorem processUnit_ok_shape (a : Date) (u u' : UnitMap)
    (h : processUnit a u = .ok u') :
    ∃ (s : String) (led : Date), u.lease_end_date = some s ∧
      strptimeMDY s = some led ∧
      u' = { u with
               monthly_rent := some (prorate (u.potential_rent.getD 0) a led),
               potential_rent := none } := by
  rcases hled : u.lease_end_date with _ | s
  · simp [processUnit, hled] at h
  · rcases hp : strptimeMDY s with _ | led
    · simp [processUnit, hled, hp] at h
    · simp only [processUnit, hled, hp] at h
      refine ⟨s, led, rfl, hp, ?_⟩
      simpa using h.symm

/-- A successful loop preserves the number of units. -/
theorem processUnits_ok_length (a : Date) (us : List UnitMap) :
    ∀ us', processUnits a us = .ok us' → us'.length = us.length := by
  induction us with
  | nil =>
    intro us' h
    simp only [processUnits] at h
    cases h
    rfl
  | cons u us ih =>
    intro us' h
    simp only [processUnits] at h
    rcases hu : processUnit a u with e | u₁
    · rw [hu] at h; cases h
    · rw [hu] at h
      rcases hus : processUnits a us with e | us₁
      · rw [hus] at h; cases h
      · rw [hus] at h
        cases h
        simpa using ih us₁ hus

/-- A successful loop processes the units index by index, in order. -/
theorem processUnits_ok_get (a : Date) (us : List UnitMap) :
    ∀ us', processUnits a us = .ok us' →
      ∀ i (hi : i < us.length) (hi' : i < us'.length),
        processUnit a (us.get ⟨i, hi⟩) = .ok (us'.get ⟨i, hi'⟩) := by
  induction us with
  | nil =>
    intro us' h i hi
    exact absurd hi (by simp)
  | cons u us ih =>
    intro us' h i hi hi'
    simp only [processUnits] at h
    rcases hu : processUnit a u with e | u₁
    · rw [hu] at h; cases h
    · rw [hu] at h
      rcases hus : processUnits a us with e | us₁
      · rw [hus] at h; cases h
      · rw [hus] at h
        cases h
        cases i with
        | zero => simpa using hu
        | succ j =>
          have hj : j < us.length := by simpa using hi
          have hj' : j < us₁.length := by
            have := processUnits_ok_length a us us₁ hus
            omega
          simpa using ih us₁ hus j hj hj'

/-- Every unit of a successfully processed list was itself processed
successfully. -/
theorem processUnits_ok_mem (a : Date) (us : List UnitMap) :
    ∀ us', processUnits a us = .ok us' →
      ∀ u ∈ us, ∃ u', processUnit a u = .ok u' := by
  induction us with
  | nil => intro us' _ u hu; exact absurd hu (by simp)
  | cons v us ih =>
    intro us' h u hu
    simp only [processUnits] at h
    rcases hv : processUnit a v with e | v₁
    · rw [hv] at h; cases h
    · rw [hv] at h
      rcases hus : processUnits a us with e | us₁
      · rw [hus] at h; cases h
      · rcases List.mem_cons.mp hu with rfl | hu'
        · exact ⟨v₁, hv⟩
        · exact ih us₁ hus u hu'

/-- Inversion of a successful normalization: the analysis date was present
and parsable, and either there was no units key (mapping unchanged) or the
unit loop succeeded. -/
theorem calculateMonthlyRentMap_ok_inv (d d' : RawData)
    (h : calculateMonthlyRentMap d = .ok d') :
    ∃ (s : String) (analysis : Date), d.analysis_date = some s ∧
      strptimeMDY s = some analysis ∧
      ((d.units = none ∧ d' = d) ∨
        ∃ us us', d.units = some us ∧ processUnits analysis us = .ok us' ∧
          d' = { d with units := some us' }) := by
  rcases ha : d.analysis_date with _ | s
  · simp [calculateMonthlyRentMap, ha] at h
  · rcases hp : strptimeMDY s with _ | analysis
    · simp [calculateMonthlyRentMap, ha, hp] at h
    · refine ⟨s, analysis, rfl, hp, ?_⟩
      rcases hus : d.units with _ | us
      · simp only [calculateMonthlyRentMap, ha, hp, hus] at h
        exact Or.inl ⟨rfl, by cases h; rfl⟩
      · simp only [calculateMonthlyRentMap, ha, hp, hus] at h
        rcases hpu : processUnits analysis us with e | us'
        · rw [hpu] at h; cases h
        · rw [hpu] at h
          cases h
          exact Or.inr ⟨us, us', rfl, hpu, rfl⟩

/-- C6: every successful Argus normalization returns exactly as many units
as the input, in the same order — index by index the output unit is the
input unit with a monthly_rent value added and potential_rent removed, all
other fields unchanged. -/
theorem C6_units_preserved (d d' : RawData) (us : List UnitMap)
    (hus : d.units = some us)
    (h : calculate_monthly_rent (.map d) = .ok d') :
    ∃ us', d'.units = some us' ∧ us'.length = us.length ∧
      ∀ i (hi : i < us.length) (hi' : i < us'.length),
        (us'.get ⟨i, hi'⟩).monthly_rent ≠ none ∧
        (us'.get ⟨i, hi'⟩).potential_rent = none ∧
        us'.get ⟨i, hi'⟩ =
          { us.get ⟨i, hi⟩ with
              monthly_rent := (us'.get ⟨i, hi'⟩).monthly_rent,
              potential_rent := none } := by
  obtain ⟨s, analysis, ha, hp, hcase⟩ := calculateMonthlyRentMap_ok_inv d d' h
  rcases hcase with ⟨hnone, _⟩ | ⟨us₀, us', hus₀, hpu, hd'⟩
  · rw [hus] at hnone; cases hnone
  · rw [hus] at hus₀
    cases hus₀
    refine ⟨us', by rw [hd'], processUnits_ok_length analysis us us' hpu, ?_⟩
    intro i hi hi'
    have hg := processUnits_ok_get analysis us us' hpu i hi hi'
    obtain ⟨s₂, led, hled, hpl, hshape⟩ := processUnit_ok_shape analysis _ _ hg
    refine ⟨by rw [hshape]; simp, by rw [hshape], ?_⟩
    rw [hshape]

/-- Witness for C6 on a two-unit document. -/
theorem C6_units_preserved_witness :
    (({ analysis_date := some "11/30/2025",
        units := some [{ unit_number := some "101",
                         lease_end_date := some "12/31/2025",
                         potential_rent := some 1200 },
                       { unit_number := some "102",
                         lease_end_date := some "3/31/2026",
                         potential_rent := some 1200 }] } : RawData).units =
      some [{ unit_number := some "101",
              lease_end_date := some "12/31/2025",
              potential_rent := some 1200 },
            { unit_number := some "102",
              lease_end_date := some "3/31/2026",
              potential_rent := some 1200 }]) ∧
    calculate_monthly_rent (.map
      { analysis_date := some "11/30/2025",
        units := some [{ unit_number := some "101",
                         lease_end_date := some "12/31/2025",
                         potential_rent := some 1200 },
                       { unit_number := some "102",
                         lease_end_date := some "3/31/2026",
                         potential_rent := some 1200 }] }) =
      .ok { analysis_date := some "11/30/2025",
            units := some [{ unit_number := some "101",
                             lease_end_date := some "12/31/2025",
                             monthly_rent := some 600 },
                           { unit_number := some "102",
                             lease_end_date := some "3/31/2026",
                             monthly_rent := some 100 }] } ∧
    (∃ us', ({ analysis_date := some "11/30/2025",
               units := some [{ unit_number := some "101",
                                lease_end_date := some "12/31/2025",
                                monthly_rent := some 600 },
                              { unit_number := some "102",
                                lease_end_date := some "3/31/2026",
                                monthly_rent := some 100 }] } : RawData).units = some us' ∧
      us'.length =
        [({ unit_number := some "101",
            lease_end_date := some "12/31/2025",
            potential_rent := some 1200 } : UnitMap),
         { unit_number := some "102",
           lease_end_date := some "3/31/2026",
           potential_rent := some 1200 }].length ∧
      ∀ i (hi : i < [({ unit_number := some "101",
                        lease_end_date := some "12/31/2025",
                        potential_rent := some 1200 } : UnitMap),
                     { unit_number := some "102",
                       lease_end_date := some "3/31/2026",
                       potential_rent := some 1200 }].length)
          (hi' : i < us'.length),
        (us'.get ⟨i, hi'⟩).monthly_rent ≠ none ∧
        (us'.get ⟨i, hi'⟩).potential_rent = none ∧
        us'.get ⟨i, hi'⟩ =
          { [({ unit_number := some "101",
                lease_end_date := some "12/31/2025",
                potential_rent := some 1200 } : UnitMap),
             { unit_number := some "102",
               lease_end_date := some "3/31/2026",
               potential_rent := some 1200 }].get ⟨i, hi⟩ with
              monthly_rent := (us'.get ⟨i, hi'⟩).monthly_rent,
              potential_rent := none }) := by
  have h1 : strptimeMDY "11/30/2025" = some ⟨2025, 11, 30⟩ := by decide
  have h2 : strptimeMDY "12/31/2025" = some ⟨2025, 12, 31⟩ := by decide
  have h3 : strptimeMDY "3/31/2026" = some ⟨2026, 3, 31⟩ := by decide
  have he : calculate_monthly_rent (.map
      { analysis_date := some "11/30/2025",
        units := some [{ unit_number := some "101",
                         lease_end_date := some "12/31/2025",
                         potential_rent := some 1200 },
                       { unit_number := some "102",
                         lease_end_date := some "3/31/2026",
                         potential_rent := some 1200 }] }) =
      .ok { analysis_date := some "11/30/2025",
            units := some [{ unit_number := some "101",
                             lease_end_date := some "12/31/2025",
                             monthly_rent := some 600 },
                           { unit_number := some "102",
                             lease_end_date := some "3/31/2026",
                             monthly_rent := some 100 }] } := by
    simp only [calculate_monthly_rent, calculateMonthlyRentMap, h1, h2, h3,
      processUnits, processUnit]
    norm_num [prorate, pyRound2, pyRoundInt, prorationDivisor]
  exact ⟨rfl, he, C6_units_preserved _ _ _ rfl he⟩

/-- C4 counterexample: a unit lacking both potential_rent and unit_number
normalizes successfully — the absent potential_rent is silently defaulted
to 0 instead of failing, so a unit list IS produced. -/
theorem C4_missing_field_cex :
    calculate_monthly_rent (.map
      { analysis_date := some "3/31/2025",
        units := some [{ lease_end_date := some "12/31/2025" }] }) =
    .ok { analysis_date := some "3/31/2025",
          units := some [{ lease_end_date := some "12/31/2025",
                           monthly_rent := some 0 }] } := by
  have h1 : strptimeMDY "3/31/2025" = some ⟨2025, 3, 31⟩ := by decide
  have h2 : strptimeMDY "12/31/2025" = some ⟨2025, 12, 31⟩ := by decide
  simp only [calculate_monthly_rent, calculateMonthlyRentMap, h1, h2,
    processUnits, processUnit]
  norm_num [prorate, pyRound2, pyRoundInt, prorationDivisor]

/-- C4 amended: in the Argus normalizer only `analysis_date` and each
unit's `lease_end_date` are required — a missing one raises a KeyError
naming just the key (no unit index, and no NormalizationError type); a
missing `potential_rent` does NOT fail: it is defaulted to 0, so the unit
comes back with monthly_rent 0; `unit_number` is never inspected. -/
theorem C4_missing_field_amended :
    (∀ d : RawData, d.analysis_date = none →
      calculate_monthly_rent (.map d) = .error (.keyError "analysis_date")) ∧
    (∀ (a : Date) (u : UnitMap), u.lease_end_date = none →
      processUnit a u = .error (.keyError "lease_end_date")) ∧
    (∀ (a : Date) (u : UnitMap) (s : String) (led : Date),
      u.potential_rent = none → u.lease_end_date = some s →
      strptimeMDY s = some led →
      processUnit a u =
        .ok { u with monthly_rent := some 0, potential_rent := none }) := by
  refine ⟨?_, ?_, ?_⟩
  · intro d hd
    simp [calculate_monthly_rent, calculateMonthlyRentMap, hd]
  · intro a u hu
    simp [processUnit, hu]
  · intro a u s led hp hl hs
    simp only [processUnit, hl, hs, hp]
    have hz : prorate ((none : Option ℚ).getD 0) a led = 0 := by
      simp only [Option.getD_none, prorate, zero_div]
      norm_num [pyRound2, pyRoundInt]
    rw [hz]

/-- Witness for the amended C4 at concrete inputs. -/
theorem C4_missing_field_amended_witness :
    calculate_monthly_rent (.map { units := some [] }) =
      .error (.keyError "analysis_date") ∧
    processUnit ⟨2025, 3, 31⟩ { potential_rent := some 100 } =
      .error (.keyError "lease_end_date") ∧
    processUnit ⟨2025, 3, 31⟩ { lease_end_date := some "6/30/2025" } =
      .ok { lease_end_date := some "6/30/2025", monthly_rent := some 0,
            potential_rent := none } :=
  ⟨C4_missing_field_amended.1 _ rfl,
   C4_missing_field_amended.2.1 _ _ rfl,
   C4_missing_field_amended.2.2 ⟨2025, 3, 31⟩ _ "6/30/2025" ⟨2025, 6, 30⟩ rfl rfl
     (by decide)⟩

/-- C5 counterexample: the failure on a malformed lease_end_date is the
same plain ValueError whether the offending unit is at index 0 or at
index 1, so the error cannot carry the offending unit index (and it is
not a NormalizationError). -/
theorem C5_no_unit_index_cex :
    calculate_monthly_rent (.map
      { analysis_date := some "3/31/2025",
        units := some [{ lease_end_date := some "not-a-date" }] }) =
      .error (.valueError "not-a-date") ∧
    calculate_monthly_rent (.map
      { analysis_date := some "3/31/2025",
        units := some [{ lease_end_date := some "12/31/2025" },
                       { lease_end_date := some "not-a-date" }] }) =
      .error (.valueError "not-a-date") := by
  have h1 : strptimeMDY "3/31/2025" = some ⟨2025, 3, 31⟩ := by decide
  have h2 : strptimeMDY "not-a-date" = none := by decide
  have h3 : strptimeMDY "12/31/2025" = some ⟨2025, 12, 31⟩ := by decide
  constructor
  · simp [calculate_monthly_rent, calculateMonthlyRentMap, processUnits,
      processUnit, h1, h2]
  · simp [calculate_monthly_rent, calculateMonthlyRentMap, processUnits,
      processUnit, h1, h2, h3]

/-- C5 amended: malformed date strings and a missing analysis_date do
fail the whole normalization — all-or-nothing, no unit list is produced
when any unit is bad — but the failure is a plain ValueError carrying the
malformed string (or KeyError carrying the key name), with no unit index
and no NormalizationError type. -/
theorem C5_all_or_nothing_amended :
    (∀ (d : RawData) (s : String), d.analysis_date = some s →
      strptimeMDY s = none →
      calculate_monthly_rent (.map d) = .error (.valueError s)) ∧
    (∀ (a : Date) (u : UnitMap) (s : String), u.lease_end_date = some s →
      strptimeMDY s = none → processUnit a u = .error (.valueError s)) ∧
    (∀ (d : RawData) (us : List UnitMap) (u : UnitMap),
      d.units = some us → u ∈ us →
      (u.lease_end_date = none ∨
        ∃ s, u.lease_end_date = some s ∧ strptimeMDY s = none) →
      ∀ d', calculate_monthly_rent (.map d) ≠ .ok d') := by
  refine ⟨?_, ?_, ?_⟩
  · intro d s hd hs
    simp [calculate_monthly_rent, calculateMonthlyRentMap, hd, hs]
  · intro a u s hu hs
    simp [processUnit, hu, hs]
  · intro d us u hus hu hbad d' hok
    obtain ⟨s, analysis, ha, hp, hcase⟩ :=
      calculateMonthlyRentMap_ok_inv d d' hok
    rcases hcase with ⟨hnone, _⟩ | ⟨us₀, us', hus₀, hpu, _⟩
    · rw [hus] at hnone; cases hnone
    · rw [hus] at hus₀
      cases hus₀
      obtain ⟨u', hu'⟩ := processUnits_ok_mem analysis us us' hpu u hu
      rcases hbad with hb | ⟨sb, hb, hsb⟩
      · rw [processUnit, hb] at hu'; cases hu'
      · rw [processUnit, hb] at hu'
        simp only [hsb] at hu'
        cases hu'

/-- Witness for the amended C5 at concrete inputs. -/
theorem C5_all_or_nothing_amended_witness :
    calculate_monthly_rent (.map { analysis_date := some "junk" }) =
      .error (.valueError "junk") ∧
    processUnit ⟨2025, 3, 31⟩ { lease_end_date := some "2/30/2025" } =
      .error (.valueError "2/30/2025") ∧
    ∀ d', calculate_monthly_rent (.map
      { analysis_date := some "3/31/2025",
        units := some [{ lease_end_date := some "junk",
                         potential_rent := some 100 }] }) ≠ .ok d' :=
  ⟨C5_all_or_nothing_amended.1 _ "junk" rfl (by decide),
   C5_all_or_nothing_amended.2.1 _ _ "2/30/2025" rfl (by decide),
   C5_all_or_nothing_amended.2.2 _ _
     { lease_end_date := some "junk", potential_rent := some 100 } rfl
     (by simp) (Or.inr ⟨"junk", rfl, by decide⟩)⟩

/-- C8 counterexample: Python mutates the RawExtraction in place and
returns it, so (modelling the post-call state of the argument as the
returned mapping) the input is modified: here the single unit loses its
potential_rent key and gains monthly_rent, giving a different mapping
than the one passed in. -/
theorem C8_mutation_cex :
    calculate_monthly_rent (.map
      { analysis_date := some "11/30/2025",
        units := some [{ unit_number := some "101",
                         lease_end_date := some "12/31/2025",
                         potential_rent := some 1200 }] }) =
      .ok { analysis_date := some "11/30/2025",
            units := some [{ unit_number := some "101",
                             lease_end_date := some "12/31/2025",
                             monthly_rent := some 600 }] } ∧
    ({ analysis_date := some "11/30/2025",
       units := some [{ unit_number := some "101",
                        lease_end_date := some "12/31/2025",
                        monthly_rent := some 600 }] } : RawData) ≠
      { analysis_date := some "11/30/2025",
        units := some [{ unit_number := some "101",
                         lease_end_date := some "12/31/2025",
                         potential_rent := some 1200 }] } := by
  have h1 : strptimeMDY "11/30/2025" = some ⟨2025, 11, 30⟩ := by decide
  have h2 : strptimeMDY "12/31/2025" = some ⟨2025, 12, 31⟩ := by decide
  constructor
  · simp only [calculate_monthly_rent, calculateMonthlyRentMap, h1, h2,
      processUnits, processUnit]
    norm_num [prorate, pyRound2, pyRoundInt, prorationDivisor]
  · intro h
    have := congrArg RawData.units h
    simp at this

/-- C8 amended: Argus normalization mutates the RawExtraction it is
given — whenever any input unit carries a potential_rent, the post-call
state of the mapping (equal, by aliasing, to the returned mapping)
differs from the input. -/
theorem C8_mutation_amended (d d' : RawData) (us : List UnitMap)
    (u : UnitMap) (hus : d.units = some us) (hu : u ∈ us)
    (hp : u.potential_rent ≠ none)
    (h : calculate_monthly_rent (.map d) = .ok d') :
    d' ≠ d := by
  obtain ⟨s, analysis, ha, hpa, hcase⟩ := calculateMonthlyRentMap_ok_inv d d' h
  rcases hcase with ⟨hnone, _⟩ | ⟨us₀, us', hus₀, hpu, hd'⟩
  · rw [hus] at hnone; cases hnone
  · rw [hus] at hus₀
    cases hus₀
    intro heq
    obtain ⟨⟨i, hi⟩, hgetu⟩ := List.mem_iff_get.mp hu
    have hi' : i < us'.length := by
      have := processUnits_ok_length analysis us us' hpu
      omega
    have hg := processUnits_ok_get analysis us us' hpu i hi hi'
    obtain ⟨s₂, led, hled, hpl, hshape⟩ := processUnit_ok_shape analysis _ _ hg
    have husq : us' = us := by
      have h2 : d'.units = d.units := by rw [heq]
      rw [hd', hus] at h2
      simpa using h2
    have hueq : us'.get ⟨i, hi'⟩ = u := by
      rw [List.get_of_eq husq ⟨i, hi'⟩]
      exact hgetu
    rw [hueq] at hshape
    exact hp (by rw [hshape])

/-- Witness for the amended C8 at a concrete document. -/
theorem C8_mutation_amended_witness :
    calculate_monthly_rent (.map
      { analysis_date := some "11/30/2025",
        units := some [{ unit_number := some "7",
                         lease_end_date := some "12/31/2025",
                         potential_rent := some 2400 }] }) =
      .ok { analysis_date := some "11/30/2025",
            units := some [{ unit_number := some "7",
                             lease_end_date := some "12/31/2025",
                             monthly_rent := some 1200 }] } ∧
    ({ analysis_date := some "11/30/2025",
       units := some [{ unit_number := some "7",
                        lease_end_date := some "12/31/2025",
                        monthly_rent := some 1200 }] } : RawData) ≠
      { analysis_date := some "11/30/2025",
        units := some [{ unit_number := some "7",
                         lease_end_date := some "12/31/2025",
                         potential_rent := some 2400 }] } := by
  have h1 : strptimeMDY "11/30/2025" = some ⟨2025, 11, 30⟩ := by decide
  have h2 : strptimeMDY "12/31/2025" = some ⟨2025, 12, 31⟩ := by decide
  have he : calculate_monthly_rent (.map
      { analysis_date := some "11/30/2025",
        units := some [{ unit_number := some "7",
                         lease_end_date := some "12/31/2025",
                         potential_rent := some 2400 }] }) =
      .ok { analysis_date := some "11/30/2025",
            units := some [{ unit_number := some "7",
                             lease_end_date := some "12/31/2025",
                             monthly_rent := some 1200 }] } := by
    simp only [calculate_monthly_rent, calculateMonthlyRentMap, h1, h2,
      processUnits, processUnit]
    norm_num [prorate, pyRound2, pyRoundInt, prorationDivisor]
  exact ⟨he,
    C8_mutation_amended _ _ _
      { unit_number := some "7", lease_end_date := some "12/31/2025",
        potential_rent := some 2400 }
      rfl (by simp) (by simp) he⟩

/-! ## Reconciliation materiality -/

/-- The executable absolute value agrees with the lattice one. -/
theorem ratAbs_eq_abs (q : ℚ) : ratAbs q = |q| := by
  unfold ratAbs
  split
  · next h =>
    have hq : q < 0 := by
      by_contra hc
      exact absurd (Rat.num_nonneg.mpr (not_lt.mp hc)) (by omega)
    rw [abs_of_neg hq]
  · next h =>
    have hq : 0 ≤ q := Rat.num_nonneg.mp (by omega)
    rw [abs_of_nonneg hq]

/-- C9: for a matched unit, reconciliation reports a monthly_rent or
square_feet discrepancy if and only if `abs(actual - argus)` is at least
the materiality threshold — a difference exactly equal to the threshold
is reportable, anything below (e.g. one cent below) is not. -/
theorem C9_materiality_threshold (t : ℚ) (a g : UnitRecord)
    (hmatch : a.unit_number = g.unit_number) (ht : 0 ≤ t) :
    ∃ res, reconcile [a] [g] t = .ok res ∧
      ((∃ r ∈ res.records, r.field_name = "monthly_rent") ↔
        t ≤ |a.monthly_rent - g.monthly_rent|) ∧
      ((∃ r ∈ res.records, r.field_name = "square_feet") ↔
        t ≤ |a.square_feet - g.square_feet|) := by
  have hnlt : ¬ t < 0 := not_lt.mpr ht
  have hcond : ¬ (¬ (([a] : List UnitRecord).map fun r => r.unit_number).Nodup ∨
      ¬ (([g] : List UnitRecord).map fun r => r.unit_number).Nodup) := by
    simp
  have hfind : (([g] : List UnitRecord).find? fun g' =>
      g'.unit_number == a.unit_number) = some g := by
    simp [List.find?, hmatch]
  have hrecords : reconcileRecords t [a] [g] = compareMatched t a g := by
    simp [reconcileRecords, hfind, hmatch]
  simp only [reconcile, if_neg hnlt, if_neg hcond]
  refine ⟨_, rfl, ?_, ?_⟩
  · show (∃ r ∈ reconcileRecords t [a] [g], r.field_name = "monthly_rent") ↔ _
    rw [hrecords]
    unfold compareMatched numericDiscrepancy eqDiscrepancy
    simp only [ratAbs_eq_abs]
    split_ifs <;> simp_all
  · show (∃ r ∈ reconcileRecords t [a] [g], r.field_name = "square_feet") ↔ _
    rw [hrecords]
    unfold compareMatched numericDiscrepancy eqDiscrepancy
    simp only [ratAbs_eq_abs]
    split_ifs <;> simp_all

/-- Witness for C9 at threshold $1.00: a rent difference of exactly 1.00
is in scope of the reported-iff equivalence, and so is one of 0.99. -/
theorem C9_materiality_threshold_witness :
    (∃ res, reconcile
        [{ unit_number := "101", occupant_name := "X", square_feet := 500,
           lease_start_date := ⟨2025, 1, 1⟩, lease_end_date := ⟨2025, 12, 31⟩,
           monthly_rent := 1000 }]
        [{ unit_number := "101", occupant_name := "X", square_feet := 500,
           lease_start_date := ⟨2025, 1, 1⟩, lease_end_date := ⟨2025, 12, 31⟩,
           monthly_rent := 999 }] 1 = .ok res ∧
      ((∃ r ∈ res.records, r.field_name = "monthly_rent") ↔
        (1 : ℚ) ≤ |(1000 : ℚ) - 999|) ∧
      ((∃ r ∈ res.records, r.field_name = "square_feet") ↔
        (1 : ℚ) ≤ |(500 : ℚ) - 500|)) ∧
    (∃ res, reconcile
        [{ unit_number := "101", occupant_name := "X", square_feet := 500,
           lease_start_date := ⟨2025, 1, 1⟩, lease_end_date := ⟨2025, 12, 31⟩,
           monthly_rent := 1000 }]
        [{ unit_number := "101", occupant_name := "X", square_feet := 500,
           lease_start_date := ⟨2025, 1, 1⟩, lease_end_date := ⟨2025, 12, 31⟩,
           monthly_rent := 99901 / 100 }] 1 = .ok res ∧
      ((∃ r ∈ res.records, r.field_name = "monthly_rent") ↔
        (1 : ℚ) ≤ |(1000 : ℚ) - 99901 / 100|) ∧
      ((∃ r ∈ res.records, r.field_name = "square_feet") ↔
        (1 : ℚ) ≤ |(500 : ℚ) - 500|)) :=
  ⟨C9_materiality_threshold 1 _ _ rfl (by norm_num),
   C9_materiality_threshold 1 _ _ rfl (by norm_num)⟩

/-! ## Serialization roundtrip: digits and tokens -/

/-- Digit characters evaluate back to their digit. -/
theorem digitVal_digitChar : ∀ d, d < 10 → digitVal (digitChar d) = some d := by
  decide

/-- Digit characters are digits. -/
theorem digitChar_isDigit : ∀ d, d < 10 → (digitChar d).isDigit = true := by
  decide

/-- A digit character never equals a non-digit character. -/
theorem isDigit_ne {c d : Char} (hc : c.isDigit = true) (hd : d.isDigit = false) :
    c ≠ d := by
  intro h
  subst h
  rw [hc] at hd
  cases hd

/-- Digit accumulation splits over append. -/
theorem digitsToNat_append (xs : List Char) :
    ∀ (ys : List Char) (acc m : Nat), digitsToNat xs acc = some m →
      digitsToNat (xs ++ ys) acc = digitsToNat ys m := by
  induction xs with
  | nil =>
    intro ys acc m h
    simp only [digitsToNat] at h
    cases h
    simp [digitsToNat]
  | cons c cs ih =>
    intro ys acc m h
    simp only [digitsToNat, List.cons_append] at h ⊢
    cases hv : digitVal c with
    | none => rw [hv] at h; cases h
    | some d =>
      rw [hv] at h
      exact ih ys _ m h

/-- All characters produced by `natDigitsRev` are digits. -/
theorem natDigitsRev_isDigit :
    ∀ fuel n c, c ∈ natDigitsRev fuel n → c.isDigit = true := by
  intro fuel
  induction fuel with
  | zero =>
    intro n c hc
    cases n <;> simp [natDigitsRev] at hc
  | succ f ih =>
    intro n c hc
    cases n with
    | zero => simp [natDigitsRev] at hc
    | succ m =>
      simp only [natDigitsRev, List.mem_cons] at hc
      rcases hc with rfl | hc
      · exact digitChar_isDigit _ (Nat.mod_lt _ (by omega))
      · exact ih _ c hc

/-- Reading back the digit rendering recovers the number. -/
theorem digitsToNat_natDigitsRev :
    ∀ fuel n acc, n ≤ fuel →
      digitsToNat ((natDigitsRev fuel n).reverse) acc =
        some (acc * 10 ^ (natDigitsRev fuel n).length + n) := by
  intro fuel
  induction fuel with
  | zero =>
    intro n acc hn
    interval_cases n
    simp [natDigitsRev, digitsToNat]
  | succ f ih =>
    intro n acc hn
    cases n with
    | zero => simp [natDigitsRev, digitsToNat]
    | succ m =>
      have hdiv : (m + 1) / 10 ≤ f := by
        have := Nat.div_lt_self (show 0 < m + 1 by omega) (show 1 < 10 by omega)
        omega
      have hlt : (m + 1) % 10 < 10 := Nat.mod_lt _ (by omega)
      simp only [natDigitsRev, List.reverse_cons]
      rw [digitsToNat_append _ _ acc _ (ih _ acc hdiv)]
      simp only [digitsToNat, digitVal_digitChar _ hlt, List.length_cons]
      congr 1
      have hda : 10 * ((m + 1) / 10) + (m + 1) % 10 = m + 1 :=
        Nat.div_add_mod (m + 1) 10
      have hre : (acc * 10 ^ (natDigitsRev f ((m + 1) / 10)).length + (m + 1) / 10)
            * 10 + (m + 1) % 10 =
          acc * (10 ^ (natDigitsRev f ((m + 1) / 10)).length * 10) +
            (10 * ((m + 1) / 10) + (m + 1) % 10) := by ring
      rw [hre, hda, pow_succ]

/-- The digit rendering of `n < 10^k` has at most `k` digits. -/
theorem natDigitsRev_length_le :
    ∀ fuel n k, n ≤ fuel → n < 10 ^ k → (natDigitsRev fuel n).length ≤ k := by
  intro fuel
  induction fuel with
  | zero =>
    intro n k hn _
    interval_cases n
    simp [natDigitsRev]
  | succ f ih =>
    intro n k hn hk
    cases n with
    | zero => simp [natDigitsRev]
    | succ m =>
      cases k with
      | zero => exact absurd hk (by simp)
      | succ e =>
        simp only [natDigitsRev, List.length_cons]
        have h1 : (m + 1) / 10 ≤ f := by
          have := Nat.div_lt_self (show 0 < m + 1 by omega) (show 1 < 10 by omega)
          omega
        have h2 : (m + 1) / 10 < 10 ^ e := by
          rw [Nat.div_lt_iff_lt_mul (by omega)]
          calc m + 1 < 10 ^ (e + 1) := hk
            _ = 10 ^ e * 10 := by rw [pow_succ]
        have := ih _ e h1 h2
        omega

/-- `parseDigits` on a nonempty list is digit accumulation from 0. -/
theorem parseDigits_eq (cs : List Char) (h : cs ≠ []) :
    parseDigits cs = digitsToNat cs 0 := by
  unfold parseDigits
  cases cs with
  | nil => cases h rfl
  | cons c cs' => rfl

/-- The decimal rendering is nonempty. -/
theorem natToChars_ne_nil (n : Nat) : natToChars n ≠ [] := by
  unfold natToChars
  split
  · simp
  · next h =>
    obtain ⟨m, rfl⟩ : ∃ m, n = m + 1 := ⟨n - 1, by omega⟩
    simp [natDigitsRev]

/-- All characters of the decimal rendering are digits. -/
theorem natToChars_isDigit (n : Nat) : ∀ c ∈ natToChars n, c.isDigit = true := by
  unfold natToChars
  split
  · intro c hc
    simp at hc
    subst hc
    decide
  · intro c hc
    exact natDigitsRev_isDigit n n c (List.mem_reverse.mp hc)

/-- Parsing the decimal rendering recovers the number. -/
theorem parseDigits_natToChars (n : Nat) : parseDigits (natToChars n) = some n := by
  rcases Nat.eq_zero_or_pos n with rfl | hpos
  · decide
  · have hne : natToChars n ≠ [] := natToChars_ne_nil n
    rw [parseDigits_eq _ hne]
    unfold natToChars
    rw [if_neg (by omega)]
    rw [digitsToNat_natDigitsRev n n 0 le_rfl]
    simp

/-- The decimal rendering of `n < 10^k` (with `k ≥ 1`) has at most `k`
digits. -/
theorem natToChars_length_le (n k : Nat) (h : n < 10 ^ k) (hk : 1 ≤ k) :
    (natToChars n).length ≤ k := by
  unfold natToChars
  split
  · simpa using hk
  · simpa using natDigitsRev_length_le n n k le_rfl h

/-- Leading zeros do not change the parsed value. -/
theorem digitsToNat_replicate_zero :
    ∀ j, digitsToNat (List.replicate j '0') 0 = some 0 := by
  intro j
  induction j with
  | zero => simp [digitsToNat]
  | succ i ih =>
    simp only [List.replicate_succ, digitsToNat]
    have : digitVal '0' = some 0 := by decide
    rw [this]
    simpa using ih

/-- Parsing a zero-padded digit string recovers the value. -/
theorem parseDigits_padZeros (k v : Nat) (cs : List Char)
    (hcs : parseDigits cs = some v) (hne : cs ≠ []) :
    parseDigits (padZeros k cs) = some v := by
  unfold padZeros
  have hne2 : List.replicate (k - cs.length) '0' ++ cs ≠ [] := by
    simp [hne]
  rw [parseDigits_eq _ hne2]
  rw [digitsToNat_append _ _ 0 0 (digitsToNat_replicate_zero _)]
  rw [← parseDigits_eq cs hne]
  exact hcs

/-- Characters of a zero-padded digit string are digits. -/
theorem padZeros_isDigit (k : Nat) (cs : List Char)
    (h : ∀ c ∈ cs, c.isDigit = true) :
    ∀ c ∈ padZeros k cs, c.isDigit = true := by
  intro c hc
  unfold padZeros at hc
  rcases List.mem_append.mp hc with hrep | hcs
  · have := List.eq_of_mem_replicate hrep
    subst this
    decide
  · exact h c hcs

/-- Padding to at least the current length gives exactly width `k`. -/
theorem padZeros_length (k : Nat) (cs : List Char) (h : cs.length ≤ k) :
    (padZeros k cs).length = k := by
  simp only [padZeros, List.length_append, List.length_replicate]
  omega

/-- The digit span splits a digit prefix off a non-digit tail. -/
theorem spanDigits_append (ds : List Char) :
    ∀ rest : List Char, (∀ c ∈ ds, c.isDigit = true) →
      (∀ c, rest.head? = some c → c.isDigit = false) →
      spanDigits (ds ++ rest) = (ds, rest) := by
  induction ds with
  | nil =>
    intro rest _ hrest
    cases rest with
    | nil => simp [spanDigits]
    | cons c r =>
      have := hrest c rfl
      simp [spanDigits, this]
  | cons c cs ih =>
    intro rest hds hrest
    have hc : c.isDigit = true := hds c (by simp)
    simp only [List.cons_append, spanDigits, hc, if_pos, List.append_eq]
    rw [ih rest (fun x hx => hds x (by simp [hx])) hrest]

/-- Reading to the closing quote returns the quote-free prefix. -/
theorem takeUntilQuote_append (s : List Char) :
    ∀ rest : List Char, (∀ c ∈ s, c ≠ '"') →
      takeUntilQuote (s ++ '"' :: rest) = some (s, rest) := by
  induction s with
  | nil =>
    intro rest _
    simp [takeUntilQuote]
  | cons c cs ih =>
    intro rest hs
    have hc : c ≠ '"' := hs c (by simp)
    simp only [List.cons_append, takeUntilQuote, if_neg hc, List.append_eq]
    rw [ih rest (fun x hx => hs x (by simp [hx]))]

/-- A successful scale search certifies divisibility. -/
theorem decExpAux_dvd (den : Nat) :
    ∀ fuel k e, decExpAux den fuel k = some e → den ∣ 10 ^ e := by
  intro fuel
  induction fuel with
  | zero => intro k e h; cases h
  | succ f ih =>
    intro k e h
    unfold decExpAux at h
    split at h
    · next hmod =>
      cases h
      exact Nat.dvd_of_mod_eq_zero hmod
    · exact ih _ _ h

/-- The integer and fractional digit groups of the decimal rendering
reassemble to the original fraction. -/
theorem decimal_mag (m k den na : Nat) (hden : 0 < den) (hdvd : den ∣ 10 ^ k)
    (hm : m = na * 10 ^ k / den) :
    ((m / 10 ^ k : ℕ) : ℚ) + ((m % 10 ^ k : ℕ) : ℚ) / ((10 : ℚ) ^ k) =
      (na : ℚ) / (den : ℚ) := by
  have h10 : ((10 : ℚ) ^ k) ≠ 0 := by positivity
  have hdq : ((den : ℚ)) ≠ 0 := by positivity
  have hmden : m * den = na * 10 ^ k := by
    rw [hm]
    exact Nat.div_mul_cancel (Dvd.dvd.mul_left hdvd na)
  have hdm : 10 ^ k * (m / 10 ^ k) + m % 10 ^ k = m := Nat.div_add_mod m (10 ^ k)
  have key : (10 : ℚ) ^ k * ((m / 10 ^ k : ℕ) : ℚ) + ((m % 10 ^ k : ℕ) : ℚ) =
      (m : ℚ) := by exact_mod_cast hdm
  have key2 : (m : ℚ) * (den : ℚ) = (na : ℚ) * (10 : ℚ) ^ k := by
    exact_mod_cast hmden
  have hsplit : ((m / 10 ^ k : ℕ) : ℚ) + ((m % 10 ^ k : ℕ) : ℚ) / ((10 : ℚ) ^ k)
      = (m : ℚ) / ((10 : ℚ) ^ k) := by
    rw [eq_div_iff h10, add_mul, div_mul_cancel₀ _ h10]
    linear_combination key
  rw [hsplit, div_eq_div_iff h10 hdq]
  exact key2

/-- `parseJNumber` on a nonnegative decimal literal followed by a
non-digit suffix. -/
theorem parseJNumber_decimal (ip fp rest : List Char) (i f : Nat)
    (hipd : ∀ c ∈ ip, c.isDigit = true) (hipne : ip ≠ [])
    (hfpd : ∀ c ∈ fp, c.isDigit = true)
    (hip : parseDigits ip = some i) (hfp : parseDigits fp = some f)
    (hrest : ∀ c, rest.head? = some c → c.isDigit = false) :
    parseJNumber (ip ++ '.' :: (fp ++ rest)) =
      some ((i : ℚ) + (f : ℚ) / ((10 : ℚ) ^ fp.length), rest) := by
  obtain ⟨c, tl, rfl⟩ : ∃ c tl, ip = c :: tl := by
    cases ip with
    | nil => cases hipne rfl
    | cons c tl => exact ⟨c, tl, rfl⟩
  have hc : c.isDigit = true := hipd c (by simp)
  have hcm : c ≠ '-' := isDigit_ne hc (by decide)
  have hspan1 : spanDigits (c :: (tl ++ '.' :: (fp ++ rest))) =
      (c :: tl, '.' :: (fp ++ rest)) := by
    have hsp := spanDigits_append (c :: tl) ('.' :: (fp ++ rest)) hipd (by
      intro x hx
      simp only [List.head?] at hx
      cases hx
      decide)
    simpa using hsp
  have hspan2 : spanDigits (fp ++ rest) = (fp, rest) :=
    spanDigits_append _ _ hfpd hrest
  simp [parseJNumber, List.cons_append, hcm, hspan1, hip, hspan2, hfp]

/-- `parseJNumber` on a negated decimal literal followed by a non-digit
suffix. -/
theorem parseJNumber_decimal_neg (ip fp rest : List Char) (i f : Nat)
    (hipd : ∀ c ∈ ip, c.isDigit = true) (hipne : ip ≠ [])
    (hfpd : ∀ c ∈ fp, c.isDigit = true)
    (hip : parseDigits ip = some i) (hfp : parseDigits fp = some f)
    (hrest : ∀ c, rest.head? = some c → c.isDigit = false) :
    parseJNumber ('-' :: (ip ++ '.' :: (fp ++ rest))) =
      some (-((i : ℚ) + (f : ℚ) / ((10 : ℚ) ^ fp.length)), rest) := by
  have hspan1 : spanDigits (ip ++ ('.' :: (fp ++ rest))) =
      (ip, '.' :: (fp ++ rest)) := by
    refine spanDigits_append _ _ hipd ?_
    intro x hx
    simp only [List.head?] at hx
    cases hx
    decide
  have hspan2 : spanDigits (fp ++ rest) = (fp, rest) :=
    spanDigits_append _ _ hfpd hrest
  simp [parseJNumber, List.cons_append, hspan1, hip, hspan2, hfp]

/-- Roundtrip for the decimal rendering of a rational: parsing it back,
followed by any non-digit suffix, recovers the rational exactly. -/
theorem parseJNumber_dumpRat (q : ℚ) (cs rest : List Char)
    (h : dumpRat q = some cs)
    (hrest : ∀ c, rest.head? = some c → c.isDigit = false) :
    parseJNumber (cs ++ rest) = some (q, rest) := by
  unfold dumpRat at h
  rcases hk : decExp q.den with _ | k
  · rw [hk] at h; cases h
  · rw [hk] at h
    have hdvd : q.den ∣ 10 ^ k := by
      unfold decExp at hk
      exact decExpAux_dvd q.den _ _ _ hk
    have hden : 0 < q.den := q.pos
    cases h
    have hipd : ∀ c ∈ natToChars (dumpRatMant q k / 10 ^ k), c.isDigit = true :=
      natToChars_isDigit _
    have hipne : natToChars (dumpRatMant q k / 10 ^ k) ≠ [] := natToChars_ne_nil _
    have hipval : parseDigits (natToChars (dumpRatMant q k / 10 ^ k)) =
        some (dumpRatMant q k / 10 ^ k) := parseDigits_natToChars _
    have hfpd : ∀ c ∈ (if k = 0 then ['0']
        else padZeros k (natToChars (dumpRatMant q k % 10 ^ k))),
        c.isDigit = true := by
      split
      · intro c hc
        simp at hc
        subst hc
        decide
      · exact padZeros_isDigit _ _ (natToChars_isDigit _)
    have hfpval : parseDigits (if k = 0 then ['0']
        else padZeros k (natToChars (dumpRatMant q k % 10 ^ k))) =
        some (dumpRatMant q k % 10 ^ k) := by
      split
      · next h0 =>
        subst h0
        simp [Nat.mod_one]
        decide
      · exact parseDigits_padZeros _ _ _ (parseDigits_natToChars _)
          (natToChars_ne_nil _)
    have hmagfp : ((dumpRatMant q k / 10 ^ k : ℕ) : ℚ) +
        ((dumpRatMant q k % 10 ^ k : ℕ) : ℚ) /
        ((10 : ℚ) ^ (if k = 0 then ['0']
          else padZeros k (natToChars (dumpRatMant q k % 10 ^ k))).length) =
        (q.num.natAbs : ℚ) / (q.den : ℚ) := by
      split
      · next h0 =>
        subst h0
        have hden1 : q.den = 1 := Nat.dvd_one.mp (by simpa using hdvd)
        simp [Nat.mod_one, hden1, dumpRatMant]
      · next h0 =>
        have hlen : (padZeros k (natToChars (dumpRatMant q k % 10 ^ k))).length
            = k := by
          refine padZeros_length _ _ ?_
          refine natToChars_length_le _ _ (Nat.mod_lt _ ?_) (by omega)
          exact Nat.pos_pow_of_pos k (by omega)
        rw [hlen]
        exact decimal_mag (dumpRatMant q k) k q.den q.num.natAbs hden hdvd rfl
    have habs : ((q.num.natAbs : ℕ) : ℚ) / (q.den : ℚ) = |q| := by
      rcases le_or_lt 0 q.num with hn | hn
      · have h0 : ((q.num.natAbs : ℕ) : ℤ) = q.num := by
          rw [← Int.abs_eq_natAbs]
          exact abs_of_nonneg hn
        have h1 : ((q.num.natAbs : ℕ) : ℚ) = (q.num : ℚ) := by
          rw [← h0]
          exact (Int.cast_natCast _).symm
        rw [h1, abs_of_nonneg (Rat.num_nonneg.mp hn)]
        exact Rat.num_div_den q
      · have h0 : ((q.num.natAbs : ℕ) : ℤ) = -q.num := by
          rw [← Int.abs_eq_natAbs]
          exact abs_of_neg hn
        have h1 : ((q.num.natAbs : ℕ) : ℚ) = -(q.num : ℚ) := by
          rw [← Int.cast_neg, ← h0]
          exact (Int.cast_natCast _).symm
        rw [h1, abs_of_neg (show q < 0 by
          by_contra hc
          exact absurd (Rat.num_nonneg.mpr (not_lt.mp hc)) (by omega))]
        rw [neg_div, Rat.num_div_den q]
    split
    · next hneg =>
      show parseJNumber (('-' :: dumpRatCore q k) ++ rest) = some (q, rest)
      have hstep : ('-' :: dumpRatCore q k) ++ rest =
          '-' :: (natToChars (dumpRatMant q k / 10 ^ k) ++
            '.' :: ((if k = 0 then ['0']
              else padZeros k (natToChars (dumpRatMant q k % 10 ^ k))) ++ rest)) := by
        simp [dumpRatCore]
      rw [hstep]
      rw [parseJNumber_decimal_neg _ _ rest _ _ hipd hipne hfpd hipval
        hfpval hrest]
      congr 2
      rw [hmagfp, habs, abs_of_neg (show q < 0 by
        by_contra hc
        exact absurd (Rat.num_nonneg.mpr (not_lt.mp hc)) (by omega))]
      simp
    · next hneg =>
      show parseJNumber (dumpRatCore q k ++ rest) = some (q, rest)
      have hstep : dumpRatCore q k ++ rest =
          natToChars (dumpRatMant q k / 10 ^ k) ++
            '.' :: ((if k = 0 then ['0']
              else padZeros k (natToChars (dumpRatMant q k % 10 ^ k))) ++ rest) := by
        simp [dumpRatCore]
      rw [hstep]
      rw [parseJNumber_decimal _ _ rest _ _ hipd hipne hfpd hipval
        hfpval hrest]
      congr 2
      rw [hmagfp, habs, abs_of_nonneg (Rat.num_nonneg.mp (by omega))]

/-- Inversion of a successful string dump. -/
theorem dumpStr_shape (s : String) (cs : List Char) (h : dumpStr s = some cs) :
    cs = '"' :: s.toList ++ ['"'] ∧ ∀ c ∈ s.toList, jsonSafe c = true := by
  unfold dumpStr at h
  split at h
  · next hall =>
    cases h
    exact ⟨rfl, fun c hc => by
      have := List.all_eq_true.mp hall c hc
      simpa using this⟩
  · cases h

/-- A safe character is not the quote. -/
theorem jsonSafe_ne_quote {c : Char} (h : jsonSafe c = true) : c ≠ '"' := by
  simp only [jsonSafe, Bool.and_eq_true, decide_eq_true_eq] at h
  exact h.1.1.1

/-- Parsing a dumped string literal recovers the string, any suffix. -/
theorem parsePrim_str (s : String) (cs rest : List Char)
    (h : dumpStr s = some cs) :
    parsePrim (cs ++ rest) = some (.jstr s, rest) := by
  obtain ⟨rfl, hsafe⟩ := dumpStr_shape s cs h
  have htake : takeUntilQuote (s.toList ++ '"' :: rest) = some (s.toList, rest) :=
    takeUntilQuote_append _ _ (fun c hc => jsonSafe_ne_quote (hsafe c hc))
  have hre : ('"' :: s.toList ++ ['"']) ++ rest =
      '"' :: (s.toList ++ '"' :: rest) := by simp
  rw [hre]
  simp only [parsePrim, if_pos rfl, htake]
  rfl

/-- The first character of a dumped number is a minus sign or a digit; in
particular the list is nonempty and does not start with `"` or `[`. -/
theorem dumpRat_head (q : ℚ) (cs : List Char) (h : dumpRat q = some cs) :
    ∃ c tl, cs = c :: tl ∧ (c = '-' ∨ c.isDigit = true) := by
  unfold dumpRat at h
  rcases hk : decExp q.den with _ | k
  · rw [hk] at h; cases h
  · rw [hk] at h
    cases h
    split
    · exact ⟨'-', _, rfl, Or.inl rfl⟩
    · unfold dumpRatCore
      obtain ⟨c, tl, hct⟩ : ∃ c tl, natToChars (dumpRatMant q k / 10 ^ k) =
          c :: tl := by
        cases hx : natToChars (dumpRatMant q k / 10 ^ k) with
        | nil => exact absurd hx (natToChars_ne_nil _)
        | cons c tl => exact ⟨c, tl, rfl⟩
      refine ⟨c, _, by rw [hct]; rfl, Or.inr ?_⟩
      exact natToChars_isDigit _ c (by rw [hct]; simp)

/-- Parsing a dumped number recovers the rational, for any suffix that
does not begin with a digit. -/
theorem parsePrim_num (q : ℚ) (cs rest : List Char) (h : dumpRat q = some cs)
    (hrest : ∀ c, rest.head? = some c → c.isDigit = false) :
    parsePrim (cs ++ rest) = some (.jnum q, rest) := by
  obtain ⟨c, tl, rfl, hc⟩ := dumpRat_head q cs h
  have hcq : c ≠ '"' := by
    rcases hc with rfl | hd
    · decide
    · exact isDigit_ne hd (by decide)
  have hnum := parseJNumber_dumpRat q (c :: tl) rest h hrest
  simp only [List.cons_append] at hnum ⊢
  simp only [parsePrim, if_neg hcq, hnum]

/-- Parsing a dumped `"key": value` pair recovers the pair, for any suffix
beginning with the item separator or the closing brace. -/
theorem parseKeyPrim_dumpPair (p : String × JVal) (cs rest : List Char)
    (h : dumpPair p = some cs)
    (hrest : rest.head? = some ',' ∨ rest.head? = some '\x7d') :
    parseKeyPrim (cs ++ rest) = some (p, rest) := by
  unfold dumpPair at h
  rcases hk : dumpStr p.1 with _ | kc
  · rw [hk] at h; cases h
  · rw [hk] at h
    rcases hv : dumpPrim p.2 with _ | vc
    · rw [hv] at h; cases h
    · rw [hv] at h
      simp only [Option.bind_eq_bind, Option.some_bind, Option.bind_some] at h
      cases h
      obtain ⟨rfl, hsafe⟩ := dumpStr_shape p.1 kc hk
      have htake : takeUntilQuote (p.1.toList ++ '"' :: (':' :: ' ' :: (vc ++ rest))) =
          some (p.1.toList, ':' :: ' ' :: (vc ++ rest)) :=
        takeUntilQuote_append _ _ (fun c hc => jsonSafe_ne_quote (hsafe c hc))
      have hre : (('"' :: p.1.toList ++ ['"']) ++ ':' :: ' ' :: vc) ++ rest =
          '"' :: (p.1.toList ++ '"' :: (':' :: ' ' :: (vc ++ rest))) := by simp
      rw [hre]
      simp only [parseKeyPrim, htake]
      have hprim : parsePrim (vc ++ rest) = some (p.2, rest) := by
        cases hp2 : p.2 with
        | jstr s =>
          rw [hp2] at hv
          exact parsePrim_str s vc rest hv
        | jnum q =>
          rw [hp2] at hv
          refine parsePrim_num q vc rest hv ?_
          intro c hcr
          rcases hrest with hr | hr
          · rw [hr] at hcr; cases hcr; decide
          · rw [hr] at hcr; cases hcr; decide
        | jarr us => rw [hp2] at hv; cases hv
      rw [hprim]
      have hmk : String.mk p.1.toList = p.1 := rfl
      rw [hmk]

/-- A dumped pair is nonempty and starts with a quote. -/
theorem dumpPair_shape (p : String × JVal) (cs : List Char)
    (h : dumpPair p = some cs) : ∃ tl, cs = '"' :: tl := by
  unfold dumpPair at h
  rcases hk : dumpStr p.1 with _ | kc
  · rw [hk] at h; cases h
  · rw [hk] at h
    rcases hv : dumpPrim p.2 with _ | vc
    · rw [hv] at h; cases h
    · rw [hv] at h
      simp only [Option.bind_eq_bind, Option.some_bind, Option.bind_some] at h
      cases h
      obtain ⟨rfl, -⟩ := dumpStr_shape p.1 kc hk
      exact ⟨_, rfl⟩

/-- Parsing a dumped pair list, terminated by the closing brace, recovers
the pairs. -/
theorem parseUnitPairs_dump (ps : List (String × JVal)) :
    ∀ (cs rest : List Char) (fuel : Nat), ps ≠ [] →
      dumpPairList ps = some cs → cs.length ≤ fuel →
      parseUnitPairs fuel (cs ++ '\x7d' :: rest) = some (ps, rest) := by
  induction ps with
  | nil => intro cs rest fuel hne; cases hne rfl
  | cons p ps ih =>
    intro cs rest fuel _ h hfuel
    cases ps with
    | nil =>
      have hp : dumpPair p = some cs := h
      obtain ⟨tl, rfl⟩ := dumpPair_shape p cs hp
      cases fuel with
      | zero => simp at hfuel
      | succ f =>
        have hkey := parseKeyPrim_dumpPair p _ ('\x7d' :: rest) hp (Or.inr rfl)
        simp only [parseUnitPairs, hkey]
    | cons p' ps' =>
      have h' : (dumpPair p).bind (fun c =>
          (dumpPairList (p' :: ps')).bind fun r =>
            some (c ++ ',' :: ' ' :: r)) = some cs := h
      rcases hc : dumpPair p with _ | c
      · rw [hc] at h'; cases h'
      · rw [hc] at h'
        rcases hr : dumpPairList (p' :: ps') with _ | r
        · rw [hr] at h'; cases h'
        · rw [hr] at h'
          simp only [Option.some_bind] at h'
          cases h'
          obtain ⟨tl, rfl⟩ := dumpPair_shape p c hc
          cases fuel with
          | zero => simp at hfuel
          | succ f =>
            have hkey := parseKeyPrim_dumpPair p _
              (',' :: ' ' :: (r ++ '\x7d' :: rest)) hc (Or.inl rfl)
            have hre : (('"' :: tl) ++ ',' :: ' ' :: r) ++ '\x7d' :: rest =
                ('"' :: tl) ++ (',' :: ' ' :: (r ++ '\x7d' :: rest)) := by simp
            rw [hre]
            simp only [parseUnitPairs, hkey]
            have hrlen : r.length ≤ f := by
              have := congrArg List.length
                (rfl : (('"' :: tl) ++ ',' :: ' ' :: r) = ('"' :: tl) ++ ',' :: ' ' :: r)
              simp only [List.length_append, List.length_cons] at hfuel
              omega
            rw [ih r rest f (by simp) hr hrlen]

/-- Folding the schema pairs of a unit back into a mapping recovers the
unit. -/
theorem toUnitMap_unitPairs (u : UnitMap) : toUnitMap (unitPairs u) {} = some u := by
  rcases u with ⟨o, un, sq, ls, le, pr, mr⟩
  rcases o with _ | o <;> rcases un with _ | un <;> rcases sq with _ | sq <;>
    rcases ls with _ | ls <;> rcases le with _ | le <;> rcases pr with _ | pr <;>
    rcases mr with _ | mr <;> rfl

/-- A unit with no pairs has no fields. -/
theorem unitPairs_eq_nil (u : UnitMap) (h : unitPairs u = []) : u = {} := by
  rcases u with ⟨o, un, sq, ls, le, pr, mr⟩
  rcases o with _ | o <;> rcases un with _ | un <;> rcases sq with _ | sq <;>
    rcases ls with _ | ls <;> rcases le with _ | le <;> rcases pr with _ | pr <;>
    rcases mr with _ | mr <;> first | rfl | exact absurd h (by simp [unitPairs])

/-- A dumped nonempty pair list starts with a quote. -/
theorem dumpPairList_shape (p : String × JVal) (ps : List (String × JVal))
    (cs : List Char) (h : dumpPairList (p :: ps) = some cs) :
    ∃ tl, cs = '"' :: tl := by
  cases ps with
  | nil => exact dumpPair_shape p cs h
  | cons p' ps' =>
    have h' : (dumpPair p).bind (fun c =>
        (dumpPairList (p' :: ps')).bind fun r =>
          some (c ++ ',' :: ' ' :: r)) = some cs := h
    rcases hc : dumpPair p with _ | c
    · rw [hc] at h'; cases h'
    · rw [hc] at h'
      rcases hr : dumpPairList (p' :: ps') with _ | r
      · rw [hr] at h'; cases h'
      · rw [hr] at h'
        simp only [Option.some_bind] at h'
        cases h'
        obtain ⟨tl, rfl⟩ := dumpPair_shape p c hc
        exact ⟨_, rfl⟩

/-- Parsing a dumped unit object recovers the unit, any suffix. -/
theorem parseUnitObj_dump (u : UnitMap) (cs rest : List Char) (fuel : Nat)
    (h : dumpUnitChars u = some cs) (hfuel : cs.length ≤ fuel) :
    parseUnitObj fuel (cs ++ rest) = some (u, rest) := by
  unfold dumpUnitChars at h
  rcases hb : dumpPairList (unitPairs u) with _ | body
  · rw [hb] at h; cases h
  · rw [hb] at h
    simp only [Option.bind_eq_bind, Option.some_bind, Option.bind_some] at h
    cases h
    cases hps : unitPairs u with
    | nil =>
      rw [hps] at hb
      have : body = [] := by
        simpa [dumpPairList] using hb.symm
      subst this
      have hu : u = {} := unitPairs_eq_nil u hps
      subst hu
      rfl
    | cons p ps =>
      rw [hps] at hb
      obtain ⟨tl, rfl⟩ := dumpPairList_shape p ps body hb
      have hre : (('\x7b' :: ('"' :: tl)) ++ ['\x7d']) ++ rest =
          '\x7b' :: (('"' :: tl) ++ '\x7d' :: rest) := by simp
      rw [hre]
      have hpairs : parseUnitPairs fuel (('"' :: tl) ++ '\x7d' :: rest) =
          some (p :: ps, rest) := by
        refine parseUnitPairs_dump (p :: ps) _ rest fuel (by simp) hb ?_
        simp only [List.length_append, List.length_cons] at hfuel ⊢
        omega
      have htum : toUnitMap (p :: ps) {} = some u := by
        rw [← hps]
        exact toUnitMap_unitPairs u
      have hq : ('"' : Char) ≠ '\x7d' := by decide
      have hpairs2 : parseUnitPairs fuel ('"' :: (tl ++ '\x7d' :: rest)) =
          some (p :: ps, rest) := by simpa using hpairs
      simp [parseUnitObj, hpairs2, htum, hq]

/-- Parsing a dumped nonempty unit array, terminated by the closing
bracket, recovers the units. -/
theorem parseUnitsList_dump (us : List UnitMap) :
    ∀ (cs rest : List Char) (fuel : Nat), us ≠ [] →
      dumpUnitsArr us = some cs → cs.length < fuel →
      parseUnitsList fuel (cs ++ ']' :: rest) = some (us, rest) := by
  induction us with
  | nil => intro cs rest fuel hne; cases hne rfl
  | cons u us ih =>
    intro cs rest fuel _ h hfuel
    cases us with
    | nil =>
      have hu : dumpUnitChars u = some cs := h
      cases fuel with
      | zero => simp at hfuel
      | succ f =>
        have hobj := parseUnitObj_dump u cs (']' :: rest) f hu (by omega)
        simp only [parseUnitsList, hobj]
    | cons u' us' =>
      have h' : (dumpUnitChars u).bind (fun c =>
          (dumpUnitsArr (u' :: us')).bind fun r =>
            some (c ++ ',' :: ' ' :: r)) = some cs := h
      rcases hc : dumpUnitChars u with _ | c
      · rw [hc] at h'; cases h'
      · rw [hc] at h'
        rcases hr : dumpUnitsArr (u' :: us') with _ | r
        · rw [hr] at h'; cases h'
        · rw [hr] at h'
          simp only [Option.some_bind] at h'
          cases h'
          cases fuel with
          | zero => simp at hfuel
          | succ f =>
            have hobj := parseUnitObj_dump u c
              (',' :: ' ' :: (r ++ ']' :: rest)) f hc (by
                simp only [List.length_append, List.length_cons] at hfuel
                omega)
            have hre : ((c ++ ',' :: ' ' :: r) ++ ']' :: rest) =
                c ++ (',' :: ' ' :: (r ++ ']' :: rest)) := by simp
            rw [hre]
            simp only [parseUnitsList, hobj]
            rw [ih r rest f (by simp) hr (by
              simp only [List.length_append, List.length_cons] at hfuel
              omega)]

/-- A dumped unit object starts with an opening brace. -/
theorem dumpUnitChars_shape (u : UnitMap) (cs : List Char)
    (h : dumpUnitChars u = some cs) : ∃ tl, cs = '\x7b' :: tl := by
  unfold dumpUnitChars at h
  rcases hb : dumpPairList (unitPairs u) with _ | body
  · rw [hb] at h; cases h
  · rw [hb] at h
    simp only [Option.bind_eq_bind, Option.some_bind, Option.bind_some] at h
    cases h
    exact ⟨_, rfl⟩

/-- A dumped nonempty unit array starts with an opening brace. -/
theorem dumpUnitsArr_shape (u : UnitMap) (us : List UnitMap) (cs : List Char)
    (h : dumpUnitsArr (u :: us) = some cs) : ∃ tl, cs = '\x7b' :: tl := by
  cases us with
  | nil => exact dumpUnitChars_shape u cs h
  | cons u' us' =>
    have h' : (dumpUnitChars u).bind (fun c =>
        (dumpUnitsArr (u' :: us')).bind fun r =>
          some (c ++ ',' :: ' ' :: r)) = some cs := h
    rcases hc : dumpUnitChars u with _ | c
    · rw [hc] at h'; cases h'
    · rw [hc] at h'
      rcases hr : dumpUnitsArr (u' :: us') with _ | r
      · rw [hr] at h'; cases h'
      · rw [hr] at h'
        simp only [Option.some_bind] at h'
        cases h'
        obtain ⟨tl, rfl⟩ := dumpUnitChars_shape u c hc
        exact ⟨_, rfl⟩

/-- A dumped string parses as a top-level value, any suffix. -/
theorem parseTopVal_jstr (s' : String) (vc : List Char) (f : Nat)
    (hv : dumpStr s' = some vc) (rest : List Char) :
    parseTopVal f (vc ++ rest) = some (.jstr s', rest) := by
  obtain ⟨rfl, -⟩ := dumpStr_shape s' vc hv
  have hp := parsePrim_str s' _ rest hv
  have hq : ('"' : Char) ≠ '[' := by decide
  simp only [List.cons_append, List.append_eq] at hp ⊢
  simp only [parseTopVal, if_neg hq]
  exact hp

/-- A dumped unit array parses as a top-level value, any suffix. -/
theorem parseTopVal_jarr (us : List UnitMap) (arr : List Char) (f : Nat)
    (h : dumpUnitsArr us = some arr) (hfuel : arr.length < f)
    (rest : List Char) :
    parseTopVal f (('[' :: arr ++ [']']) ++ rest) = some (.jarr us, rest) := by
  cases us with
  | nil =>
    have : arr = [] := by simpa [dumpUnitsArr] using h.symm
    subst this
    simp [parseTopVal]
  | cons u us' =>
    obtain ⟨tl, rfl⟩ := dumpUnitsArr_shape u us' arr h
    have hlist := parseUnitsList_dump (u :: us') _ rest f (by simp) h hfuel
    have hq1 : ('\x7b' : Char) ≠ ']' := by decide
    try simp only [List.cons_append, List.append_eq] at hlist
    simp [parseTopVal, hq1, hlist]

/-- One dumped top-level pair followed by the closing brace. -/
theorem parseTopPairs_single (key : String)
    (hkey : ∀ c ∈ key.toList, c ≠ '"') (vc : List Char) (v : JVal) (f : Nat)
    (hv : ∀ rest', parseTopVal f (vc ++ rest') = some (v, rest'))
    (rest : List Char) :
    parseTopPairs (f + 1)
      ((('"' :: key.toList ++ ['"']) ++ ':' :: ' ' :: vc) ++ '\x7d' :: rest) =
      some ([(key, v)], rest) := by
  have htake : takeUntilQuote
      (key.toList ++ '"' :: (':' :: ' ' :: (vc ++ '\x7d' :: rest))) =
      some (key.toList, ':' :: ' ' :: (vc ++ '\x7d' :: rest)) :=
    takeUntilQuote_append _ _ hkey
  have hre : ((('"' :: key.toList ++ ['"']) ++ ':' :: ' ' :: vc) ++ '\x7d' :: rest)
      = '"' :: (key.toList ++ '"' :: (':' :: ' ' :: (vc ++ '\x7d' :: rest))) := by
    simp
  rw [hre]
  simp only [parseTopPairs, htake, hv ('\x7d' :: rest)]
  rfl

/-- One dumped top-level pair followed by the item separator and more
pairs. -/
theorem parseTopPairs_cons (key : String)
    (hkey : ∀ c ∈ key.toList, c ≠ '"') (vc : List Char) (v : JVal) (f : Nat)
    (hv : ∀ rest', parseTopVal f (vc ++ rest') = some (v, rest'))
    (more rest : List Char) (ps : List (String × JVal))
    (hmore : parseTopPairs f more = some (ps, rest)) :
    parseTopPairs (f + 1)
      ((('"' :: key.toList ++ ['"']) ++ ':' :: ' ' :: vc) ++ ',' :: ' ' :: more) =
      some ((key, v) :: ps, rest) := by
  have htake : takeUntilQuote
      (key.toList ++ '"' :: (':' :: ' ' :: (vc ++ ',' :: ' ' :: more))) =
      some (key.toList, ':' :: ' ' :: (vc ++ ',' :: ' ' :: more)) :=
    takeUntilQuote_append _ _ hkey
  have hre : ((('"' :: key.toList ++ ['"']) ++ ':' :: ' ' :: vc) ++ ',' :: ' ' :: more)
      = '"' :: (key.toList ++ '"' :: (':' :: ' ' :: (vc ++ ',' :: ' ' :: more))) := by
    simp
  rw [hre]
  simp only [parseTopPairs, htake, hv (',' :: ' ' :: more), hmore]
  rfl

/-- More fuel never hurts the unit pair parser. -/
theorem parseUnitPairs_mono :
    ∀ f f' cs r, f ≤ f' → parseUnitPairs f cs = some r →
      parseUnitPairs f' cs = some r := by
  intro f
  induction f with
  | zero => intro f' cs r _ h; cases h
  | succ g ih =>
    intro f' cs r hle h
    obtain ⟨g', rfl⟩ : ∃ g', f' = g' + 1 := ⟨f' - 1, by omega⟩
    rcases hkv : parseKeyPrim cs with _ | kv
    · simp [parseUnitPairs, hkv] at h
    · rcases kv with ⟨kv1, cs2⟩
      simp only [parseUnitPairs, hkv] at h ⊢
      split at h
      · next csa cs3 =>
        rcases hrec : parseUnitPairs g cs3 with _ | pr
        · simp [hrec] at h
        · simp only [hrec] at h
          simp only [ih g' cs3 pr (by omega) hrec]
          exact h
      · next rest heq => exact h
      · next heq1 heq2 => cases h

/-- More fuel never hurts the unit object parser. -/
theorem parseUnitObj_mono (f f' : Nat) (cs : List Char) (r : UnitMap × List Char)
    (hle : f ≤ f') (h : parseUnitObj f cs = some r) :
    parseUnitObj f' cs = some r := by
  unfold parseUnitObj at h ⊢
  split at h
  · next c cs1 =>
    split at h
    · next hc =>
      split at h
      · next c2 cs2 =>
        rw [if_pos hc]
        split at h
        · next hc2 => rw [if_pos hc2]; exact h
        · next hc2 =>
          rw [if_neg hc2]
          rcases hps : parseUnitPairs f (c2 :: cs2) with _ | pr
          · rw [hps] at h; cases h
          · rw [hps] at h
            rw [parseUnitPairs_mono f f' (c2 :: cs2) pr hle hps]
            exact h
      · next => cases h
    · next hc => cases h
  · next => cases h

/-- More fuel never hurts the unit array parser. -/
theorem parseUnitsList_mono :
    ∀ f f' cs r, f ≤ f' → parseUnitsList f cs = some r →
      parseUnitsList f' cs = some r := by
  intro f
  induction f with
  | zero => intro f' cs r _ h; cases h
  | succ g ih =>
    intro f' cs r hle h
    obtain ⟨g', rfl⟩ : ∃ g', f' = g' + 1 := ⟨f' - 1, by omega⟩
    rcases hobj : parseUnitObj g cs with _ | ur
    · simp [parseUnitsList, hobj] at h
    · rcases ur with ⟨u1, cs2⟩
      simp only [parseUnitsList, hobj,
        parseUnitObj_mono g g' cs (u1, cs2) (by omega) hobj] at h ⊢
      split at h
      · next csa cs3 =>
        rcases hrec : parseUnitsList g cs3 with _ | pr
        · simp [hrec] at h
        · simp only [hrec] at h
          simp only [ih g' cs3 pr (by omega) hrec]
          exact h
      · next rest heq => exact h
      · next heq1 heq2 => cases h

/-- More fuel never hurts the top-level value parser. -/
theorem parseTopVal_mono (f f' : Nat) (cs : List Char) (r : JVal × List Char)
    (hle : f ≤ f') (h : parseTopVal f cs = some r) :
    parseTopVal f' cs = some r := by
  unfold parseTopVal at h ⊢
  split at h
  · next c cs1 =>
    split at h
    · next hc =>
      rw [if_pos hc]
      split at h
      · next c2 cs2 =>
        split at h
        · next hc2 => rw [if_pos hc2]; exact h
        · next hc2 =>
          rw [if_neg hc2]
          rcases hul : parseUnitsList f (c2 :: cs2) with _ | pr
          · rw [hul] at h; cases h
          · rw [hul] at h
            rw [parseUnitsList_mono f f' (c2 :: cs2) pr hle hul]
            exact h
      · next => cases h
    · next hc => rw [if_neg hc]; exact h
  · next => cases h

/-- More fuel never hurts the top-level pair parser. -/
theorem parseTopPairs_mono :
    ∀ f f' cs r, f ≤ f' → parseTopPairs f cs = some r →
      parseTopPairs f' cs = some r := by
  intro f
  induction f with
  | zero => intro f' cs r _ h; cases h
  | succ g ih =>
    intro f' cs r hle h
    obtain ⟨g', rfl⟩ : ∃ g', f' = g' + 1 := ⟨f' - 1, by omega⟩
    simp only [parseTopPairs] at h ⊢
    split at h
    · next c cs1 =>
      rcases htq : takeUntilQuote cs1 with _ | kr
      · simp [htq] at h
      · rcases kr with ⟨key, cs2⟩
        simp only [htq] at h ⊢
        split at h
        · next csa cs3 =>
          rcases htv : parseTopVal g cs3 with _ | vr
          · simp [htv] at h
          · rcases vr with ⟨v1, cs4⟩
            simp only [htv,
              parseTopVal_mono g g' cs3 (v1, cs4) (by omega) htv] at h ⊢
            split at h
            · next csb cs5 =>
              rcases hrec : parseTopPairs g cs5 with _ | pr
              · simp [hrec] at h
              · simp only [hrec] at h
                simp only [ih g' cs5 pr (by omega) hrec]
                exact h
            · next rest heq2 => exact h
            · next heq2 heq3 => cases h
        · next heq => cases h
    · next => cases h

/-- `json_loads` on an object literal whose interior parses as a
top-level pair list consuming everything up to the final brace. -/
theorem json_loads_of_pairs (b0 : Char) (btl : List Char) (f : Nat)
    (ps : List (String × JVal)) (d : RawData) (cs : List Char)
    (hcs : cs = '\x7b' :: (b0 :: btl) ++ ['\x7d'])
    (hf : f ≤ btl.length + 3)
    (hp : parseTopPairs f ((b0 :: btl) ++ ['\x7d']) = some (ps, []))
    (hd : toRawData ps {} = some d) :
    json_loads (String.mk cs) = some d := by
  subst hcs
  have hp2 := parseTopPairs_mono f
    ((String.mk ('\x7b' :: (b0 :: btl) ++ ['\x7d'])).length) _ _
    (by simp [String.length]; omega) hp
  rcases btl with _ | ⟨b1, btl2⟩
  · show (match parseTopPairs
        ((String.mk ('\x7b' :: (b0 :: ([] : List Char)) ++ ['\x7d'])).length)
        ((b0 :: ([] : List Char)) ++ ['\x7d']) with
      | some (ps, []) => toRawData ps ({} : RawData)
      | _ => none) = some d
    rw [hp2]
    exact hd
  · show (match parseTopPairs
        ((String.mk ('\x7b' :: (b0 :: b1 :: btl2) ++ ['\x7d'])).length)
        ((b0 :: b1 :: btl2) ++ ['\x7d']) with
      | some (ps, []) => toRawData ps ({} : RawData)
      | _ => none) = some d
    rw [hp2]
    exact hd

/-- Parsing the serialization of a RawExtraction mapping recovers the
mapping. -/
theorem json_loads_dumps (d : RawData) (s : String) (h : json_dumps d = some s) :
    json_loads s = some d := by
  rcases d with ⟨ad, un⟩
  rcases ad with _ | as'
  · rcases un with _ | us
    · have hd : json_dumps ⟨none, none⟩ = some (String.mk ['\x7b', '\x7d']) := rfl
      rw [hd] at h
      have hs := (Option.some.inj h).symm
      subst hs
      decide
    · rcases harr : dumpUnitsArr us with _ | arr
      · exfalso
        simp [json_dumps, harr] at h
      · have hku : dumpStr "units" = some ('"' :: "units".toList ++ ['"']) := by
          decide
        have hdump : json_dumps ⟨none, some us⟩ = some (String.mk
            ('\x7b' :: (('"' :: "units".toList ++ ['"']) ++
              ':' :: ' ' :: ('[' :: arr ++ [']'])) ++ ['\x7d'])) := by
          simp [json_dumps, harr, hku]
        rw [hdump] at h
        obtain rfl := (Option.some.inj h).symm
        refine json_loads_of_pairs '"'
          ("units".toList ++ '"' :: ':' :: ' ' :: '[' :: (arr ++ [']']))
          (arr.length + 1 + 1) [("units", JVal.jarr us)] _ _
          (by simp) (by simp) ?_ (by rfl)
        have hv : ∀ rest', parseTopVal (arr.length + 1)
            (('[' :: arr ++ [']']) ++ rest') = some (.jarr us, rest') :=
          fun rest' => parseTopVal_jarr us arr _ harr (by omega) rest'
        have hsingle := parseTopPairs_single "units" (by decide)
          ('[' :: arr ++ [']']) (.jarr us) (arr.length + 1) hv []
        simpa using hsingle
  · rcases has' : dumpStr as' with _ | av
    · exfalso
      rcases un with _ | us <;> simp [json_dumps, has'] at h
    · obtain ⟨rfl, -⟩ := dumpStr_shape as' av has'
      have hka : dumpStr "analysis_date" =
          some ('"' :: "analysis_date".toList ++ ['"']) := by decide
      rcases un with _ | us
      · have hdump : json_dumps ⟨some as', none⟩ = some (String.mk
            ('\x7b' :: (('"' :: "analysis_date".toList ++ ['"']) ++
              ':' :: ' ' :: ('"' :: as'.toList ++ ['"'])) ++ ['\x7d'])) := by
          simp [json_dumps, has', hka]
        rw [hdump] at h
        obtain rfl := (Option.some.inj h).symm
        refine json_loads_of_pairs '"'
          ("analysis_date".toList ++
            '"' :: ':' :: ' ' :: '"' :: (as'.toList ++ ['"']))
          1 [("analysis_date", JVal.jstr as')] _ _
          (by simp) (by omega) ?_ (by rfl)
        have hv : ∀ rest', parseTopVal 0
            (('"' :: as'.toList ++ ['"']) ++ rest') = some (.jstr as', rest') :=
          fun rest' => parseTopVal_jstr as' _ 0 has' rest'
        have hsingle := parseTopPairs_single "analysis_date" (by decide)
          ('"' :: as'.toList ++ ['"']) (.jstr as') 0 hv []
        simpa using hsingle
      · rcases harr : dumpUnitsArr us with _ | arr
        · exfalso
          simp [json_dumps, has', harr] at h
        · have hku : dumpStr "units" =
              some ('"' :: "units".toList ++ ['"']) := by decide
          have hdump : json_dumps ⟨some as', some us⟩ = some (String.mk
              ('\x7b' :: ((('"' :: "analysis_date".toList ++ ['"']) ++
                ':' :: ' ' :: ('"' :: as'.toList ++ ['"'])) ++
                ',' :: ' ' :: (('"' :: "units".toList ++ ['"']) ++
                ':' :: ' ' :: ('[' :: arr ++ [']']))) ++ ['\x7d'])) := by
            simp [json_dumps, has', hka, hku, harr]
          rw [hdump] at h
          obtain rfl := (Option.some.inj h).symm
          refine json_loads_of_pairs '"'
            ("analysis_date".toList ++
              '"' :: ':' :: ' ' :: '"' :: (as'.toList ++
              '"' :: ',' :: ' ' :: '"' :: ("units".toList ++
              '"' :: ':' :: ' ' :: '[' :: (arr ++ [']']))))
            (arr.length + 2 + 1)
            [("analysis_date", JVal.jstr as'), ("units", JVal.jarr us)] _ _
            (by simp) (by simp; omega) ?_ (by rfl)
          have hvu : ∀ rest', parseTopVal (arr.length + 1)
              (('[' :: arr ++ [']']) ++ rest') = some (.jarr us, rest') :=
            fun rest' => parseTopVal_jarr us arr _ harr (by omega) rest'
          have hsingle := parseTopPairs_single "units" (by decide)
            ('[' :: arr ++ [']']) (.jarr us) (arr.length + 1) hvu []
          have hva : ∀ rest', parseTopVal (arr.length + 2)
              (('"' :: as'.toList ++ ['"']) ++ rest') =
              some (.jstr as', rest') :=
            fun rest' => parseTopVal_jstr as' _ _ has' rest'
          have hcons := parseTopPairs_cons "analysis_date" (by decide)
            ('"' :: as'.toList ++ ['"']) (.jstr as') (arr.length + 2) hva
            ((('"' :: "units".toList ++ ['"']) ++
              ':' :: ' ' :: ('[' :: arr ++ [']'])) ++ '\x7d' :: [])
            [] [("units", JVal.jarr us)] hsingle
          simpa using hcons

/-- C7: `calculate_monthly_rent` accepts its RawExtraction either as an
already-parsed mapping or as a string to be parsed into that mapping, and
normalizing a mapping and normalizing its string serialization produce
the same result. -/
theorem C7_str_map_equivalent (d : RawData) (s : String)
    (h : json_dumps d = some s) :
    calculate_monthly_rent (.str s) = calculate_monthly_rent (.map d) := by
  show (match json_loads s with
    | none => Except.error PyError.jsonDecodeError
    | some d' => calculateMonthlyRentMap d') = calculate_monthly_rent (.map d)
  rw [json_loads_dumps d s h]
  rfl

/-- Witness for C7 at the empty mapping, whose serialization is the
two-character object literal. -/
theorem C7_str_map_equivalent_witness :
    json_dumps ⟨none, none⟩ = some (String.mk ['\x7b', '\x7d']) ∧
    calculate_monthly_rent (.str (String.mk ['\x7b', '\x7d'])) =
      calculate_monthly_rent (.map ⟨none, none⟩) :=
  ⟨rfl, C7_str_map_equivalent ⟨none, none⟩ (String.mk ['\x7b', '\x7d']) rfl⟩

end ArgusRentRoll

